import Mathlib

/-!
Shallow embedding of the AI flashcard pipeline of the `anki-ai-raycast`
repository: field mapping (`src/ai/fieldMapper.ts`), response parsing
(`src/ai/prompt.ts`), quality-score parsing and content classification
(`contentDetection.ts` / `scoring.ts`), together with proofs of the
spec claims about them.
-/

deriving instance DecidableEq for Except

namespace AnkiAI

/-- JS string truthiness for an optional string: `undefined` and `""` are falsy. -/
def truthy : Option String → Bool
  | some s => !(s == "")
  | none => false

/-- JS `a || b` where `a` is an optional string and `b` a string default. -/
def jsOr (a : Option String) (b : String) : String :=
  match a with
  | some s => if s == "" then b else s
  | none => b

/-- Note type tag, `src/ai/types.ts`. -/
inductive NoteType
  | BASIC
  | CLOZE
deriving DecidableEq

/-- A field of an Anki model (only the name is consulted by the mapper). -/
structure Fld where
  name : String
deriving DecidableEq

/-- An Anki note model: name, type tag (1 = cloze) and ordered field list. -/
structure Model where
  name : String
  type : Int
  flds : List Fld
deriving DecidableEq

/-- Semantic AI card, `src/ai/types.ts` `AICard`. -/
structure AICard where
  front : Option String := none
  back : Option String := none
  text : Option String := none
  extra : Option String := none
  code : Option String := none
  timestamp : Option String := none
  tags : List String := []
  modelName : Option String := none
  deckName : Option String := none
  noteType : Option NoteType := none
deriving DecidableEq

/-- JS `s.toLowerCase()` (ASCII case mapping suffices here). -/
def lowerStr (s : String) : String :=
  ⟨s.toList.map Char.toLower⟩

/-- Insertion-ordered string map, modelling a JS `Record<string, string>`. -/
abbrev FieldMap := List (String × String)

def hasKey (m : FieldMap) (k : String) : Bool :=
  m.any (fun p => p.1 == k)

/-- JS `m[k] = v`: update in place if the key exists (the maps built here
never carry duplicate keys), else append. -/
def setF : FieldMap → String → String → FieldMap
  | [], k, v => [(k, v)]
  | p :: t, k, v => if p.1 == k then (k, v) :: t else p :: setF t k v

def getF (m : FieldMap) (k : String) : Option String :=
  (m.find? (fun p => p.1 == k)).map (fun p => p.2)

/-- Guarded assignment `if (fld && v) m[fld] = v` with JS truthiness on `v`. -/
def setIf (m : FieldMap) (fld : Option String) (v : Option String) : FieldMap :=
  match fld, v with
  | some f, some s => if s == "" then m else setF m f s
  | _, _ => m

/-- The trailing loop `for (fn of names) if (!(fn in fields)) fields[fn] = ''`. -/
def fillEmpty (names : List String) (m : FieldMap) : FieldMap :=
  names.foldl (fun acc fn => if hasKey acc fn then acc else acc ++ [(fn, "")]) m

/-- Mapping outcome: `MappingResult | MappingError` of `fieldMapper.ts`. -/
inductive MappingOut
  | ok (modelName : String) (fields : FieldMap)
  | err (msg : String)
deriving DecidableEq

/-! ### The cloze-stripping regex

`mapBasicCardFromCloze` strips deletions with the JS global replace
`text.replace(/\{\{c\d+::(.*?)(?:::[^}]*)?\}\}/g, '$1')`.  The model below
reproduces the backtracking semantics: at each inner-length step the engine
first tries the greedy optional hint group `(?:::[^}]*)?` followed by the
closing braces, then the closing braces alone, and only then extends the
lazy inner group by one (non-newline, since `.` has no `s` flag) character.
-/

/-- The attempt at the greedy optional hint group: `::[^}]*\}\}` starting at
`t` (the leading `::` already consumed); returns the rest after `\}\}`. -/
def hintClose (t : List Char) : Option (List Char) :=
  match t.dropWhile (fun c => c ≠ '\x7d') with
  | '\x7d' :: '\x7d' :: r => some r
  | _ => none

/-- Search for the end of a deletion body: returns the lazy inner group and
the remainder of the input after the closing braces.  The fuel only bounds
the recursion (every step consumes one input character, so any fuel of at
least `l.length + 1` is exact). -/
def clozeBody : Nat → (l : List Char) → Option (List Char × List Char)
  | 0, _ => none
  | _ + 1, [] => none
  | _ + 1, '\x7d' :: '\x7d' :: r => some ([], r)
  | f + 1, ':' :: ':' :: t =>
      (match hintClose t with
       | some r => some ([], r)
       | none =>
         match clozeBody f (':' :: t) with
         | some (inner, r) => some (':' :: inner, r)
         | none => none)
  | f + 1, c :: t =>
      if c = '\n' then none
      else
        match clozeBody f t with
        | some (inner, r) => some (c :: inner, r)
        | none => none

/-- Match the opener `\{\{c\d+::`; returns the rest of the input. -/
def clozeOpen : List Char → Option (List Char)
  | '\x7b' :: '\x7b' :: 'c' :: t =>
      if (t.takeWhile Char.isDigit).isEmpty then none
      else
        match t.dropWhile Char.isDigit with
        | ':' :: ':' :: r => some r
        | _ => none
  | _ => none

/-- Match the whole deletion regex at the start of `l`; returns the
replacement (the inner group) and the remainder after the match. -/
def matchClozeAt (l : List Char) : Option (List Char × List Char) :=
  match clozeOpen l with
  | some r => clozeBody (r.length + 1) r
  | none => none

/-- One left-to-right pass of the global replace.  Every step consumes at
least one input character, so fuel `l.length + 1` is exact. -/
def stripAux : Nat → List Char → List Char
  | 0, l => l
  | _ + 1, [] => []
  | f + 1, c :: t =>
      match matchClozeAt (c :: t) with
      | some (inner, rest) => inner ++ stripAux f rest
      | none => c :: stripAux f t

/-- `text.replace(/\{\{c\d+::(.*?)(?:::[^}]*)?\}\}/g, '$1')`. -/
def stripClozes (s : String) : String :=
  ⟨stripAux (s.toList.length + 1) s.toList⟩

/-! ### The field mapper, `src/ai/fieldMapper.ts` -/

/-- `mapBasicCard` (`fieldMapper.ts` lines 79-132). -/
def mapBasicCard (card : AICard) (models : List Model) (basicModelName : String) :
    MappingOut :=
  match models.find? (fun m => m.name == basicModelName) with
  | none => .err ("Basic model \"" ++ basicModelName ++ "\" not found in Anki")
  | some basicModel =>
    let fieldNames := basicModel.flds.map (fun f => f.name)
    let frontField := fieldNames.find? (fun f => lowerStr f == "front")
    let backField := fieldNames.find? (fun f => lowerStr f == "back")
    let base : Except String FieldMap :=
      match frontField, backField with
      | some ff, some bf =>
          .ok (setF (setF [] ff (jsOr card.front (jsOr card.text ""))) bf
            (jsOr card.back ""))
      | _, _ =>
          match fieldNames with
          | fn0 :: fn1 :: _ =>
              .ok (setF (setF [] fn0 (jsOr card.front (jsOr card.text ""))) fn1
                (jsOr card.back ""))
          | _ =>
              .error ("Basic model \"" ++ basicModelName ++
                "\" needs at least 2 fields. Has: " ++
                String.intercalate ", " fieldNames)
    match base with
    | .error e => .err e
    | .ok f0 =>
      let extraField := fieldNames.find? (fun f => lowerStr f == "extra")
      let f1 := setIf f0 extraField card.extra
      let codeField := fieldNames.find? (fun f => lowerStr f == "code")
      let f2 := setIf f1 codeField card.code
      let timestampField := fieldNames.find?
        (fun f => lowerStr f == "timestamp" || lowerStr f == "timestamp/source")
      let f3 := setIf f2 timestampField card.timestamp
      .ok basicModelName (fillEmpty fieldNames f3)

/-- `mapBasicCardFromCloze` (`fieldMapper.ts` lines 134-148). -/
def mapBasicCardFromCloze (card : AICard) (models : List Model)
    (basicModelName : String) : MappingOut :=
  let strippedText := stripClozes (jsOr card.text "")
  let modifiedCard : AICard :=
    { card with
      front := some (jsOr card.front strippedText)
      back := some (jsOr card.back (jsOr card.extra "")) }
  mapBasicCard modifiedCard models basicModelName

/-- `mapClozeCard` (`fieldMapper.ts` lines 26-77).  The source's
`{ ...fallback, fields: { ...fallback.fields } }` is a shallow copy and is
modelled as the identity. -/
def mapClozeCard (card : AICard) (models : List Model)
    (clozeModelName basicFallback : String) : MappingOut :=
  match models.find? (fun m => m.name == clozeModelName) with
  | none => mapBasicCardFromCloze card models basicFallback
  | some clozeModel =>
    if clozeModel.type ≠ 1 then
      .err ("Model \"" ++ clozeModelName ++ "\" is not a Cloze-type model (type=" ++
        toString clozeModel.type ++ ")")
    else
      let fieldNames := clozeModel.flds.map (fun f => f.name)
      match fieldNames.find? (fun f => lowerStr f == "text") with
      | none =>
          .err ("Cloze model \"" ++ clozeModelName ++ "\" has no \"Text\" field. Fields: " ++
            String.intercalate ", " fieldNames)
      | some textField =>
        let f0 := setF [] textField (jsOr card.text (jsOr card.front ""))
        let extraField := fieldNames.find?
          (fun f => lowerStr f == "extra" || lowerStr f == "back extra")
        let f1 := setIf f0 extraField card.extra
        let timestampField := fieldNames.find?
          (fun f => lowerStr f == "timestamp" || lowerStr f == "timestamp/source")
        let f2 := setIf f1 timestampField card.timestamp
        .ok clozeModelName (fillEmpty fieldNames f2)

/-- `mapAICardToAnkiFields` (`fieldMapper.ts` lines 13-24). -/
def mapAICardToAnkiFields (card : AICard) (noteType : NoteType)
    (availableModels : List Model) (basicModelName clozeModelName : String) :
    MappingOut :=
  if noteType = NoteType.CLOZE then
    mapClozeCard card availableModels clozeModelName basicModelName
  else
    mapBasicCard card availableModels basicModelName

/-! ### JSON values and `JSON.parse`

The response parser calls the host `JSON.parse`.  We model JSON values with
exact decimal numbers `m / 10 ^ e` (every numeral in the claims is small
and exact) and model `JSON.parse` as a recursive-descent parser that
accepts a single value followed only by whitespace.  Duplicate object keys
keep the last occurrence, as in JS.
-/

inductive Json
  | null
  | bool (b : Bool)
  | num (m : Int) (e : Nat)
  | str (s : String)
  | arr (items : List Json)
  | obj (fields : List (String × Json))

def jsonWs (c : Char) : Bool :=
  c = ' ' || c = '\t' || c = '\n' || c = '\r'

def skipWs (l : List Char) : List Char :=
  l.dropWhile jsonWs

/-- Parse the body of a JSON string literal (opening quote consumed). -/
def parseStrBody : (l : List Char) → Option (String × List Char)
  | [] => none
  | '"' :: r => some ("", r)
  | '\\' :: e :: r =>
      let esc : Option Char :=
        match e with
        | '"' => some '"'
        | '\\' => some '\\'
        | '/' => some '/'
        | 'b' => some (Char.ofNat 8)
        | 'f' => some (Char.ofNat 12)
        | 'n' => some '\n'
        | 'r' => some '\r'
        | 't' => some '\t'
        | _ => none
      match esc with
      | none => none
      | some c =>
          match parseStrBody r with
          | some (s, r2) => some (⟨c :: s.toList⟩, r2)
          | none => none
  | c :: r =>
      match parseStrBody r with
      | some (s, r2) => some (⟨c :: s.toList⟩, r2)
      | none => none

def digitsVal (ds : List Char) : ℕ :=
  ds.foldl (fun a c => a * 10 + (c.toNat - 48)) 0

/-- Parse a JSON number `-?digits(.digits)?([eE][+-]?digits)?` into an
exact decimal `(mantissa, exp10)` with value `mantissa / 10 ^ exp10`. -/
def parseNum (l : List Char) : Option ((Int × Nat) × List Char) :=
  let (neg, l1) := match l with
    | '-' :: t => (true, t)
    | _ => (false, l)
  let ds := l1.takeWhile Char.isDigit
  if ds.isEmpty then none
  else
    let l2 := l1.dropWhile Char.isDigit
    let ((m1, e1), l3) : (Nat × Nat) × List Char :=
      match l2 with
      | '.' :: t =>
          let fs := t.takeWhile Char.isDigit
          ((digitsVal ds * 10 ^ fs.length + digitsVal fs, fs.length),
            t.dropWhile Char.isDigit)
      | _ => ((digitsVal ds, 0), l2)
    let ((m2, e2), l4) : (Nat × Nat) × List Char :=
      match l3 with
      | 'e' :: rest | 'E' :: rest =>
          (match rest with
           | '-' :: t =>
               ((m1, e1 + digitsVal (t.takeWhile Char.isDigit)),
                 t.dropWhile Char.isDigit)
           | '+' :: t =>
               ((m1 * 10 ^ digitsVal (t.takeWhile Char.isDigit), e1),
                 t.dropWhile Char.isDigit)
           | t =>
               ((m1 * 10 ^ digitsVal (t.takeWhile Char.isDigit), e1),
                 t.dropWhile Char.isDigit))
      | _ => ((m1, e1), l3)
    some ((if neg then -(m2 : Int) else (m2 : Int), e2), l4)

mutual

def parseVal : Nat → List Char → Option (Json × List Char)
  | 0, _ => none
  | Nat.succ fuel, l =>
    match skipWs l with
    | 't' :: 'r' :: 'u' :: 'e' :: r => some (.bool true, r)
    | 'f' :: 'a' :: 'l' :: 's' :: 'e' :: r => some (.bool false, r)
    | 'n' :: 'u' :: 'l' :: 'l' :: r => some (.null, r)
    | '"' :: r =>
        match parseStrBody r with
        | some (s, r2) => some (.str s, r2)
        | none => none
    | '[' :: r =>
        (match skipWs r with
         | ']' :: r2 => some (.arr [], r2)
         | _ =>
            match parseArrItems fuel (skipWs r) with
            | some (xs, r2) => some (.arr xs, r2)
            | none => none)
    | '\x7b' :: r =>
        (match skipWs r with
         | '\x7d' :: r2 => some (.obj [], r2)
         | _ =>
            match parseObjItems fuel (skipWs r) with
            | some (xs, r2) => some (.obj xs, r2)
            | none => none)
    | l2 =>
        match parseNum l2 with
        | some ((m, e), r) => some (.num m e, r)
        | none => none

def parseArrItems : Nat → List Char → Option (List Json × List Char)
  | 0, _ => none
  | Nat.succ fuel, l =>
    match parseVal fuel l with
    | none => none
    | some (v, r) =>
        match skipWs r with
        | ',' :: r2 =>
            (match parseArrItems fuel r2 with
             | some (xs, r3) => some (v :: xs, r3)
             | none => none)
        | ']' :: r2 => some ([v], r2)
        | _ => none

def parseObjItems : Nat → List Char → Option (List (String × Json) × List Char)
  | 0, _ => none
  | Nat.succ fuel, l =>
    match skipWs l with
    | '"' :: r =>
        (match parseStrBody r with
         | none => none
         | some (k, r2) =>
            match skipWs r2 with
            | ':' :: r3 =>
                (match parseVal fuel r3 with
                 | none => none
                 | some (v, r4) =>
                    match skipWs r4 with
                    | ',' :: r5 =>
                        (match parseObjItems fuel r5 with
                         | some (xs, r6) => some ((k, v) :: xs, r6)
                         | none => none)
                    | '\x7d' :: r5 => some ([(k, v)], r5)
                    | _ => none)
            | _ => none)
    | _ => none

end

/-- Model of `JSON.parse`: a single value, then only trailing whitespace. -/
def jsonParse (s : String) : Option Json :=
  match parseVal (2 * s.length + 4) s.toList with
  | some (v, rest) => if (skipWs rest).isEmpty then some v else none
  | none => none

/-- Property lookup on a parsed value, as a JS member access would see it:
objects expose their fields (last duplicate wins), arrays expose no string
keys, and anything else is not object-like (`typeof x !== 'object'` or
`null`). -/
def jsObjLike : Json → Option (List (String × Json))
  | .obj o => some o
  | .arr _ => some []
  | _ => none

def objGet (o : List (String × Json)) (k : String) : Option Json :=
  (o.reverse.find? (fun p => p.1 == k)).map (fun p => p.2)

def asStr : Json → Option String
  | .str s => some s
  | _ => none

/-- `VALID_NOTE_TYPES.includes(x)`: only the strings BASIC / CLOZE pass. -/
def noteTypeOfJson : Option Json → Option NoteType
  | some (.str s) =>
      if s == "BASIC" then some NoteType.BASIC
      else if s == "CLOZE" then some NoteType.CLOZE
      else none
  | _ => none

def strOrNone (j : Option Json) : Option String :=
  j.bind asStr

def tagsOfJson (j : Option Json) : List String :=
  match j with
  | some (.arr xs) => xs.filterMap asStr
  | _ => []

/-! ### `extractJSON` and `parseAIResponse`, `src/ai/prompt.ts` lines 204-269 -/

/-- Whitespace for JS `String.prototype.trim` (ASCII range). -/
def jsWsChar (c : Char) : Bool :=
  c = ' ' || c = '\t' || c = '\n' || c = '\r' || c = '\x0b' || c = '\x0c'

def jsTrimList (l : List Char) : List Char :=
  ((l.dropWhile jsWsChar).reverse.dropWhile jsWsChar).reverse

/-- JS `s.trim()`. -/
def jsTrim (s : String) : String :=
  ⟨jsTrimList s.toList⟩

def bt3 : List Char := ['`', '`', '`']

def leadsWith : List Char → List Char → Bool
  | [], _ => true
  | _ :: _, [] => false
  | p :: ps, c :: cs => p == c && leadsWith ps cs

/-- Index of the first occurrence of `pat` in `l`. -/
def findSeq (pat : List Char) : List Char → Option Nat
  | [] => if leadsWith pat [] then some 0 else none
  | c :: t =>
      if leadsWith pat (c :: t) then some 0
      else (findSeq pat t).map (fun i => i + 1)

/-- The fenced-block tier: leftmost match of
`/```(?:json)?\s*\n?([\s\S]*?)\n?```/` followed by `.trim()` of group 1.
The `\s*\n?` wrappers of the lazy group are absorbed by the final trim, so
the result is the trimmed text between the opening fence (with an optional
literal `json` tag) and the earliest later fence. -/
def fenceResult (t : List Char) : Option String :=
  match findSeq bt3 t with
  | none => none
  | some o1 =>
      let a := if leadsWith "json".toList (t.drop (o1 + 3)) then o1 + 7 else o1 + 3
      let rest := t.drop a
      match findSeq bt3 rest with
      | none => none
      | some k => some (jsTrim (String.mk (rest.take k)))

def startsWithBrace (s : String) : Bool :=
  match s.toList with
  | c :: _ => c = '\x7b'
  | [] => false

def idxOf (c : Char) : List Char → Option Nat
  | [] => none
  | d :: t => if d = c then some 0 else (idxOf c t).map (fun i => i + 1)

def lastIdxOf (c : Char) (l : List Char) : Option Nat :=
  (idxOf c l.reverse).map (fun i => l.length - 1 - i)

/-- `extractJSON` (`prompt.ts` lines 204-219). -/
def extractJSON (raw : String) : Except String String :=
  let trimmed := jsTrim raw
  if startsWithBrace trimmed then .ok trimmed
  else
    match fenceResult trimmed.toList with
    | some s => .ok s
    | none =>
        match idxOf '\x7b' trimmed.toList, lastIdxOf '\x7d' trimmed.toList with
        | some bs, some be =>
            if bs < be then
              .ok (String.mk ((trimmed.toList.drop bs).take (be + 1 - bs)))
            else .error "No JSON object found in AI response"
        | _, _ => .error "No JSON object found in AI response"

/-- `validateCard` (`prompt.ts` lines 221-242).  `typeof card === 'object'`
admits arrays, whose string properties are all `undefined`. -/
def validateCard (card : Json) (index : Nat) : Except String AICard :=
  match jsObjLike card with
  | none => .error ("Card at index " ++ toString index ++ " is not an object")
  | some o =>
      .ok
        { front := strOrNone (objGet o "front")
          back := strOrNone (objGet o "back")
          text := strOrNone (objGet o "text")
          extra := strOrNone (objGet o "extra")
          code := strOrNone (objGet o "code")
          timestamp := strOrNone (objGet o "timestamp")
          tags := tagsOfJson (objGet o "tags")
          modelName := strOrNone (objGet o "modelName")
          deckName := strOrNone (objGet o "deckName")
          noteType := noteTypeOfJson (objGet o "noteType") }

structure AIResponse where
  selectedNoteType : NoteType
  cards : List AICard
  notes : String
deriving DecidableEq

/-- `cards.map((c, i) => validateCard(c, i))`: sequential, the first throw
aborts. -/
def validateCardsAux : Nat → List Json → Except String (List AICard)
  | _, [] => .ok []
  | i, c :: t => do
      let card ← validateCard c i
      let rest ← validateCardsAux (i + 1) t
      .ok (card :: rest)

def validateCards (cards : List Json) : Except String (List AICard) :=
  validateCardsAux 0 cards

/-- `parseAIResponse` (`prompt.ts` lines 244-269).  `JSON.parse` failures
surface as a host `SyntaxError`; the exact message is host-generated. -/
def parseAIResponse (raw : String) : Except String AIResponse := do
  let jsonStr ← extractJSON raw
  match jsonParse jsonStr with
  | none => .error "SyntaxError: JSON.parse failed"
  | some parsed =>
      match jsObjLike parsed with
      | none => .error "AI response is not a valid JSON object"
      | some o =>
          let selectedNoteType :=
            match noteTypeOfJson (objGet o "selectedNoteType") with
            | some nt => nt
            | none => NoteType.BASIC
          match objGet o "cards" with
          | some (.arr cards) =>
              if cards.isEmpty then .error "AI response contains no cards"
              else do
                let cs ← validateCards cards
                .ok
                  { selectedNoteType := selectedNoteType
                    cards := cs
                    notes := (strOrNone (objGet o "notes")).getD "" }
          | _ => .error "AI response contains no cards"

/-! ### Quality-score parsing, `scoring.ts` -/

structure CardScore where
  score : ℤ
  grade : String
  feedback : List String
  improvedCard : Option AICard
deriving DecidableEq

structure ScoreResponse where
  scores : List CardScore
deriving DecidableEq

/-- JS `Math.round` on the exact decimal `m / 10 ^ e`: rounds halves toward
`+∞`, i.e. `⌊v + 1/2⌋` computed by integer floor division. -/
def jsRound (m : Int) (e : Nat) : Int :=
  Int.fdiv (2 * m + ((10 ^ e : Nat) : Int)) (2 * ((10 ^ e : Nat) : Int))

/-- `gradeFromScore` (`scoring.ts` lines 361-366). -/
def gradeFromScore (score : ℤ) : String :=
  if score ≥ 9 then "Excellent"
  else if score ≥ 7 then "Good"
  else if score ≥ 5 then "Needs Work"
  else "Poor"

/-- `validateImprovedCard` (`scoring.ts` lines 368-380). -/
def validateImprovedCard (card : Option Json) : Option AICard :=
  match card with
  | none => none
  | some j =>
      match jsObjLike j with
      | none => none
      | some o =>
          some
            { front := strOrNone (objGet o "front")
              back := strOrNone (objGet o "back")
              text := strOrNone (objGet o "text")
              extra := strOrNone (objGet o "extra")
              tags := tagsOfJson (objGet o "tags")
              noteType := noteTypeOfJson (objGet o "noteType") }

/-- One entry of the `scores.map` in `parseScoreResponse` (lines 407-416).
A `null` entry makes the JS property accesses throw. -/
def parseScoreEntry (s : Json) (i : Nat) : Except String CardScore :=
  match s with
  | .null => .error "TypeError: cannot read properties of null"
  | _ =>
    let o := match s with
      | .obj o => o
      | _ => []
    let score : ℤ :=
      match objGet o "score" with
      | some (.num m e) => min 10 (max 1 (jsRound m e))
      | _ => 5
    let feedback :=
      match objGet o "feedback" with
      | some (.arr xs) => xs.filterMap asStr
      | _ => ["Card " ++ toString (i + 1) ++ ": no feedback provided"]
    let improvedCard :=
      if score < 7 then validateImprovedCard (objGet o "improvedCard") else none
    .ok
      { score := score
        grade := gradeFromScore score
        feedback := feedback
        improvedCard := improvedCard }

/-- `parsed.scores.map((s, i) => ...)` of `parseScoreResponse`. -/
def parseScoresAux : Nat → List Json → Except String (List CardScore)
  | _, [] => .ok []
  | i, s :: t => do
      let cs ← parseScoreEntry s i
      let rest ← parseScoresAux (i + 1) t
      .ok (cs :: rest)

/-- The inline three-tier extraction of `parseScoreResponse` (lines 384-399),
structurally identical to `extractJSON` but with its own error message. -/
def extractScoreJSON (raw : String) : Except String String :=
  let trimmed := jsTrim raw
  if startsWithBrace trimmed then .ok trimmed
  else
    match fenceResult trimmed.toList with
    | some s => .ok s
    | none =>
        match idxOf '\x7b' trimmed.toList, lastIdxOf '\x7d' trimmed.toList with
        | some bs, some be =>
            if bs < be then
              .ok (String.mk ((trimmed.toList.drop bs).take (be + 1 - bs)))
            else .error "No JSON object found in scoring response"
        | _, _ => .error "No JSON object found in scoring response"

/-- `parseScoreResponse` (`scoring.ts` lines 382-419). -/
def parseScoreResponse (raw : String) : Except String ScoreResponse := do
  let jsonStr ← extractScoreJSON raw
  match jsonParse jsonStr with
  | none => .error "SyntaxError: JSON.parse failed"
  | some parsed =>
      match jsObjLike parsed with
      | none => .error "Scoring response missing \"scores\" array"
      | some o =>
          match objGet o "scores" with
          | some (.arr xs) => do
              let scores ← parseScoresAux 0 xs
              .ok { scores := scores }
          | _ => .error "Scoring response missing \"scores\" array"

/-! ### Content classification, `contentDetection.ts`

The detection rules are JS regexes.  We embed them as a small regex AST
with a backtracking matcher; only matchability matters for `p.test(text)`,
so the matcher returns the set of reachable states.  `\b` needs one
character of left context, threaded as `Option Char`.
-/

inductive RE
  | eps
  | ch (c : Char)
  | anyc (dotAll : Bool)
  | cls (neg : Bool) (cs : List Char)
  | digit
  | wsp
  | wch
  | wordB
  | seq (a b : RE)
  | alt (a b : RE)
  | star (r : RE)
deriving DecidableEq

def eqChar (ic : Bool) (a b : Char) : Bool :=
  if ic then a.toLower == b.toLower else a == b

def isWordChar (c : Char) : Bool :=
  c.isAlphanum || c = '_'

def isSpaceChar (c : Char) : Bool :=
  c = ' ' || c = '\t' || c = '\n' || c = '\r' || c = '\x0b' || c = '\x0c'

/-- All states `(previous char, rest)` reachable by matching `re` at the
head of `cs`.  The fuel only bounds recursion depth; star unfoldings must
consume input, which is sound for matchability, and `reTest` supplies fuel
that dominates the depth of any consuming derivation. -/
def mtch (ic : Bool) : Nat → RE → Option Char → List Char → List (Option Char × List Char)
  | 0, _, _, _ => []
  | _ + 1, .eps, p, cs => [(p, cs)]
  | _ + 1, .ch _, _, [] => []
  | _ + 1, .ch c, _, d :: cs => if eqChar ic c d then [(some d, cs)] else []
  | _ + 1, .anyc _, _, [] => []
  | _ + 1, .anyc da, _, d :: cs =>
      if da = false && d = '\n' then [] else [(some d, cs)]
  | _ + 1, .cls _ _, _, [] => []
  | _ + 1, .cls neg set, _, d :: cs =>
      if (set.any (fun c => eqChar ic c d)) ≠ neg then [(some d, cs)] else []
  | _ + 1, .digit, _, [] => []
  | _ + 1, .digit, _, d :: cs => if d.isDigit then [(some d, cs)] else []
  | _ + 1, .wsp, _, [] => []
  | _ + 1, .wsp, _, d :: cs => if isSpaceChar d then [(some d, cs)] else []
  | _ + 1, .wch, _, [] => []
  | _ + 1, .wch, _, d :: cs => if isWordChar d then [(some d, cs)] else []
  | _ + 1, .wordB, p, cs =>
      let before := match p with
        | some c => isWordChar c
        | none => false
      let after := match cs with
        | c :: _ => isWordChar c
        | [] => false
      if before ≠ after then [(p, cs)] else []
  | f + 1, .seq a b, p, cs =>
      (mtch ic f a p cs).flatMap (fun pr => mtch ic f b pr.1 pr.2)
  | f + 1, .alt a b, p, cs => mtch ic f a p cs ++ mtch ic f b p cs
  | f + 1, .star r, p, cs =>
      (p, cs) :: (mtch ic f r p cs).flatMap (fun pr =>
        if pr.2.length < cs.length then mtch ic f (.star r) pr.1 pr.2 else [])

/-- Unanchored search: try a match at every start position. -/
def reSearchAux (ic : Bool) (re : RE) (fuel : Nat) :
    Option Char → List Char → Bool
  | p, cs =>
      !(mtch ic fuel re p cs).isEmpty ||
        match cs with
        | [] => false
        | c :: t => reSearchAux ic re fuel (some c) t

structure Pattern where
  ic : Bool
  re : RE
deriving DecidableEq

def reSize : RE → Nat
  | .seq a b => reSize a + reSize b + 1
  | .alt a b => reSize a + reSize b + 1
  | .star r => reSize r + 1
  | _ => 1

/-- `p.test(text)` for a pattern without the `g` flag. -/
def reTest (p : Pattern) (s : String) : Bool :=
  reSearchAux p.ic p.re ((reSize p.re + 2) * (s.length + 2) + 8) none s.toList

def lit (s : String) : RE :=
  s.toList.foldr (fun c acc => RE.seq (.ch c) acc) .eps

def seqL (l : List RE) : RE :=
  l.foldr RE.seq .eps

def altL : List RE → RE
  | [] => .eps
  | [r] => r
  | r :: rs => .alt r (altL rs)

def rplus (r : RE) : RE :=
  .seq r (.star r)

def ropt (r : RE) : RE :=
  .alt r .eps

def wsPlus : RE := rplus .wsp

def wsStar : RE := .star .wsp

/-- `\bs\b`. -/
def bw (s : String) : RE :=
  seqL [.wordB, lit s, .wordB]

/-- `\bs` (no trailing boundary). -/
def bwp (s : String) : RE :=
  .seq .wordB (lit s)

/-- Up to `n` further repetitions, for bounded quantifiers. -/
def upTo : Nat → RE → RE
  | 0, _ => .eps
  | Nat.succ n, r => ropt (.seq r (upTo n r))

inductive ContentType
  | DSA_CONCEPT
  | LEETCODE_PROBLEM
  | SYSTEM_DESIGN_CONCEPT
  | SYSTEM_DESIGN_PRACTICE
  | PROGRAMMING_LANGUAGE
  | BEHAVIORAL_QA
  | OTHER
deriving DecidableEq

structure DetectionRule where
  type : ContentType
  strongSignals : List Pattern
  weakSignals : List Pattern
  threshold : Nat
deriving DecidableEq

/-- The `RULES` table of `contentDetection.ts` lines 19-172, pattern by
pattern. -/
def RULES : List DetectionRule := [
  { type := .LEETCODE_PROBLEM
    strongSignals := [
      ⟨true, lit "leetcode"⟩,
      ⟨false, seqL [.wordB, lit "Input", wsStar, .ch ':']⟩,
      ⟨false, seqL [.wordB, lit "Output", wsStar, .ch ':']⟩,
      ⟨true, seqL [.wordB, lit "Constraint", ropt (.ch 's'), wsStar, .ch ':']⟩,
      ⟨false, seqL [.wordB, lit "Example", wsPlus, rplus .digit, wsStar, .ch ':']⟩,
      ⟨false, seqL [.ch '#', .digit, upTo 3 .digit, .wordB]⟩,
      ⟨true, bw "neetcode"⟩]
    weakSignals := [
      ⟨true, bw "time complexity"⟩,
      ⟨true, bw "space complexity"⟩,
      ⟨false, seqL [.ch 'O', .ch '(', rplus (.cls true [')']), .ch ')']⟩,
      ⟨true, seqL [.wordB, lit "brute", wsStar, lit "force", .wordB]⟩,
      ⟨true, bw "optimal"⟩]
    threshold := 2 },
  { type := .DSA_CONCEPT
    strongSignals := [
      ⟨true, seqL [.wordB, lit "data", wsPlus, lit "structure"]⟩,
      ⟨true, bw "algorithm"⟩,
      ⟨true, seqL [.wordB, lit "binary", wsPlus, altL [lit "tree", lit "search"], .wordB]⟩,
      ⟨true, seqL [.wordB, lit "hash", wsStar, altL [lit "map", lit "table", lit "set"], .wordB]⟩,
      ⟨true, seqL [.wordB, lit "linked", wsPlus, lit "list", .wordB]⟩,
      ⟨true, seqL [.wordB, altL [lit "BFS", lit "DFS", lit "dijkstra", lit "topological"], .wordB]⟩,
      ⟨true, bw "heap"⟩,
      ⟨true, bw "trie"⟩,
      ⟨true, bw "stack"⟩,
      ⟨true, bw "queue"⟩,
      ⟨true, bw "graph"⟩,
      ⟨true, bw "sorting"⟩,
      ⟨true, seqL [.wordB, lit "dynamic", wsPlus, lit "programming", .wordB]⟩,
      ⟨true, seqL [.wordB, lit "sliding", wsPlus, lit "window", .wordB]⟩,
      ⟨true, seqL [.wordB, lit "two", wsPlus, lit "pointer"]⟩,
      ⟨true, bw "monotonic"⟩]
    weakSignals := [
      ⟨false, seqL [.ch 'O', .ch '(', rplus (.cls true [')']), .ch ')']⟩,
      ⟨true, bw "time complexity"⟩,
      ⟨true, bw "space complexity"⟩,
      ⟨true, bw "recursion"⟩,
      ⟨true, bw "amortized"⟩]
    threshold := 2 },
  { type := .SYSTEM_DESIGN_PRACTICE
    strongSignals := [
      ⟨true, seqL [.wordB, lit "design", wsPlus, altL [lit "a", lit "an", lit "the"], wsPlus, .wch]⟩,
      ⟨true, seqL [.wordB, lit "design", wsPlus, altL [
        lit "youtube", lit "twitter", lit "instagram", lit "uber", lit "whatsapp",
        lit "facebook", lit "netflix", lit "tiktok", lit "slack", lit "discord",
        lit "reddit", seqL [lit "url", wsPlus, lit "shortener"], lit "pastebin",
        seqL [lit "rate", wsPlus, lit "limiter"], lit "chat", lit "notification",
        seqL [lit "search", wsPlus, lit "engine"], seqL [lit "google", wsPlus, lit "drive"],
        lit "dropbox", lit "payment", lit "booking"]]⟩,
      ⟨true, seqL [.wordB, lit "how", wsPlus, lit "would", wsPlus, lit "you", wsPlus, lit "design", .wordB]⟩]
    weakSignals := [
      ⟨true, bw "scalability"⟩,
      ⟨true, seqL [.wordB, lit "load", wsPlus, lit "balancer", .wordB]⟩,
      ⟨true, seqL [.wordB, lit "database", wsPlus, altL [lit "schema", lit "design"], .wordB]⟩,
      ⟨true, seqL [.wordB, lit "API", wsPlus, lit "design", .wordB]⟩,
      ⟨true, bwp "microservice"⟩,
      ⟨true, bw "caching"⟩]
    threshold := 1 },
  { type := .SYSTEM_DESIGN_CONCEPT
    strongSignals := [
      ⟨true, seqL [.wordB, lit "system", wsPlus, lit "design", .wordB]⟩,
      ⟨true, bw "scalability"⟩,
      ⟨true, seqL [.wordB, lit "distributed", wsPlus, altL [lit "system", lit "computing"], .wordB]⟩,
      ⟨true, seqL [.wordB, lit "CAP", wsPlus, lit "theorem", .wordB]⟩,
      ⟨true, seqL [.wordB, lit "load", wsPlus, lit "balanc"]⟩,
      ⟨true, seqL [.wordB, lit "consistent", wsPlus, lit "hashing", .wordB]⟩,
      ⟨true, bw "sharding"⟩,
      ⟨true, bw "replication"⟩,
      ⟨true, seqL [.wordB, lit "message", wsPlus, lit "queue", .wordB]⟩,
      ⟨false, bw "CDN"⟩,
      ⟨true, bwp "microservice"⟩,
      ⟨true, seqL [.wordB, lit "event", .cls false [' ', '\t', '\n', '\r', '\x0b', '\x0c', '-'], lit "driven", .wordB]⟩,
      ⟨true, bw "CQRS"⟩]
    weakSignals := [
      ⟨true, bw "throughput"⟩,
      ⟨true, bw "latency"⟩,
      ⟨true, bw "availability"⟩,
      ⟨true, seqL [.wordB, lit "partition", wsPlus, lit "tolerance", .wordB]⟩,
      ⟨true, bw "caching"⟩,
      ⟨true, bw "Redis"⟩,
      ⟨true, bw "Kafka"⟩]
    threshold := 2 },
  { type := .PROGRAMMING_LANGUAGE
    strongSignals := [
      ⟨false, seqL [.wordB, lit "def", wsPlus, rplus .wch, wsStar, .ch '(']⟩,
      ⟨false, seqL [.wordB, lit "func", wsPlus, rplus .wch, wsStar, .ch '(']⟩,
      ⟨false, seqL [.wordB, lit "fn", wsPlus, rplus .wch, wsStar, .ch '(']⟩,
      ⟨true, bwp "goroutine"⟩,
      ⟨true, seqL [.wordB, lit "channel", .wordB, .star (.anyc false), .wordB, lit "go", .wordB]⟩,
      ⟨true, bw "python"⟩,
      ⟨true, altL [bw "golang", seqL [.wordB, lit "go", wsPlus, lit "language", .wordB]]⟩,
      ⟨true, bw "rust"⟩,
      ⟨true, bw "typescript"⟩,
      ⟨true, bw "javascript"⟩,
      ⟨true, bw "java"⟩,
      ⟨true, bw "swift"⟩,
      ⟨true, bw "kotlin"⟩,
      ⟨true, bw "decorator"⟩,
      ⟨true, bw "generator"⟩,
      ⟨true, seqL [.wordB, lit "async", wsPlus, lit "await", .wordB]⟩,
      ⟨true, seqL [.wordB, lit "type", wsPlus, lit "hint"]⟩,
      ⟨true, seqL [.wordB, lit "generic", ropt (.ch 's'), .wordB]⟩,
      ⟨true, bw "closure"⟩,
      ⟨true, bw "protocol"⟩,
      ⟨true, bw "trait"⟩,
      ⟨true, bw "interface"⟩]
    weakSignals := [
      ⟨true, bw "syntax"⟩,
      ⟨true, bw "compiler"⟩,
      ⟨true, bw "interpreter"⟩,
      ⟨true, bw "runtime"⟩,
      ⟨true, seqL [.wordB, lit "memory", wsPlus, lit "management", .wordB]⟩]
    threshold := 2 },
  { type := .BEHAVIORAL_QA
    strongSignals := [
      ⟨true, seqL [lit "tell", wsPlus, lit "me", wsPlus, lit "about", wsPlus, lit "a", wsPlus, lit "time"]⟩,
      ⟨false, bw "STAR"⟩,
      ⟨true, bw "behavioral"⟩,
      ⟨true, seqL [.wordB, lit "situation", .wordB, .star (.anyc true), .wordB, lit "task", .wordB,
        .star (.anyc true), .wordB, lit "action", .wordB, .star (.anyc true), .wordB, lit "result", .wordB]⟩,
      ⟨true, bw "leadership"⟩,
      ⟨true, seqL [.wordB, lit "conflict", wsPlus, lit "resolution", .wordB]⟩,
      ⟨true, bw "teamwork"⟩,
      ⟨true, seqL [lit "describe", wsPlus, lit "a", wsPlus, altL [lit "situation", lit "time", lit "challenge"]]⟩,
      ⟨true, seqL [.wordB, lit "what", wsPlus, lit "would", wsPlus, lit "you", wsPlus, lit "do", wsPlus, lit "if", .wordB]⟩,
      ⟨true, seqL [.wordB, lit "give", wsPlus, lit "me", wsPlus, lit "an", wsPlus, lit "example", .wordB]⟩]
    weakSignals := [
      ⟨true, bw "interview"⟩,
      ⟨true, bwp "strength"⟩,
      ⟨true, bwp "weakness"⟩,
      ⟨true, bw "challenge"⟩,
      ⟨true, bw "accomplishment"⟩]
    threshold := 1 }]

/-- `countMatches` (`contentDetection.ts` lines 174-176). -/
def countMatches (text : String) (patterns : List Pattern) : Nat :=
  (patterns.filter (fun p => reTest p text)).length

/-- A rule's threshold check and score, as computed by `detectContentType`:
`none` when the strong count is below the threshold, else
`strong * 3 + weak`. -/
def scoreOf (text : String) (r : DetectionRule) : Option Nat :=
  if countMatches text r.strongSignals < r.threshold then none
  else some (countMatches text r.strongSignals * 3 + countMatches text r.weakSignals)

/-- `detectContentType` (`contentDetection.ts` lines 178-196). -/
def detectContentType (text : String) : ContentType :=
  (RULES.foldl (fun best rule =>
    let strong := countMatches text rule.strongSignals
    if strong < rule.threshold then best
    else
      let weak := countMatches text rule.weakSignals
      let score := strong * 3 + weak
      if score > best.2 then (rule.type, score) else best)
    (ContentType.OTHER, 0)).1

/-! ### Concrete inputs used by the claims -/

/-- The cloze text of the spec's fallback example. -/
def redisText : String :=
  "\x7b\x7bc1::Redis\x7d\x7d is an in-memory \x7b\x7bc2::key-value store\x7d\x7d"

def redisCard : AICard := { text := some redisText, tags := [] }

/-- A Basic-shaped schema (type tag 0, Front/Back fields). -/
def basicFB : Model := ⟨"Basic", 0, [⟨"Front"⟩, ⟨"Back"⟩]⟩

/-- Does a string contain the two-character opener of a deletion span? -/
def hasDoubleBrace (s : String) : Bool :=
  (findSeq ['\x7b', '\x7b'] s.toList).isSome

/-- Does any output field of a mapping result contain deletion markup? -/
def outHasBraces : MappingOut → Bool
  | .ok _ fields => fields.any (fun p => hasDoubleBrace p.2)
  | .err _ => false

def isNumJson : Option Json → Bool
  | some (.num _ _) => true
  | _ => false

/-! ### Claim C1 -/

/-- Claim C1 (cloze fallback correctness): when no schema matches the
configured cloze-model name, the CLOZE path reduces to the BASIC path on a
card whose front is synthesized (when the card has no truthy front) from
the text with every `\x7b\x7bcN::inner\x7d\x7d` / `\x7b\x7bcN::inner::hint\x7d\x7d` span
replaced by `inner`; in particular the Redis example maps to
`front="Redis is an in-memory key-value store"` against a Basic-only
schema set, with no `\x7b\x7b` left in any output field. -/
theorem C1_cloze_fallback :
    (∀ (card : AICard) (models : List Model) (basicName clozeName : String),
      models.find? (fun m => m.name == clozeName) = none →
      mapAICardToAnkiFields card NoteType.CLOZE models basicName clozeName =
        mapBasicCard
          { card with
            front := some (jsOr card.front (stripClozes (jsOr card.text "")))
            back := some (jsOr card.back (jsOr card.extra "")) }
          models basicName) ∧
    mapAICardToAnkiFields redisCard NoteType.CLOZE [basicFB] "Basic" "Cloze" =
      MappingOut.ok "Basic"
        [("Front", "Redis is an in-memory key-value store"), ("Back", "")] ∧
    outHasBraces
      (mapAICardToAnkiFields redisCard NoteType.CLOZE [basicFB] "Basic" "Cloze") =
      false := by
  refine ⟨?_, by decide, by decide⟩
  intro card models bn cn h
  simp only [mapAICardToAnkiFields, if_pos, mapClozeCard, h, mapBasicCardFromCloze]

/-- Witness for C1: the fallback equation applied at the Redis card with an
empty schema list. -/
theorem C1_witness :
    mapAICardToAnkiFields redisCard NoteType.CLOZE [] "Basic" "Cloze" =
      mapBasicCard
        { redisCard with
          front := some (jsOr redisCard.front (stripClozes (jsOr redisCard.text "")))
          back := some (jsOr redisCard.back (jsOr redisCard.extra "")) }
        [] "Basic" :=
  C1_cloze_fallback.1 redisCard [] "Basic" "Cloze" (by decide)

/-! ### Claim C3 -/

/-- Claim C3 (incompatible schema type): if the schema found under the
configured cloze-model name has a type tag other than 1, mapping a CLOZE
card returns the tagged error variant, never a silent Basic coercion. -/
theorem C3_incompatible_type :
    ∀ (card : AICard) (models : List Model) (basicName clozeName : String) (m : Model),
      models.find? (fun x => x.name == clozeName) = some m → m.type ≠ 1 →
      mapAICardToAnkiFields card NoteType.CLOZE models basicName clozeName =
        MappingOut.err ("Model \"" ++ clozeName ++ "\" is not a Cloze-type model (type=" ++
          toString m.type ++ ")") := by
  intro card models bn cn m h ht
  simp only [mapAICardToAnkiFields, if_pos, mapClozeCard, h, if_pos ht]

/-- Witness for C3: a schema named `Cloze` with type tag 0. -/
theorem C3_witness :
    mapAICardToAnkiFields redisCard NoteType.CLOZE [⟨"Cloze", 0, [⟨"Text"⟩]⟩]
        "Basic" "Cloze" =
      MappingOut.err "Model \"Cloze\" is not a Cloze-type model (type=0)" :=
  C3_incompatible_type redisCard [⟨"Cloze", 0, [⟨"Text"⟩]⟩] "Basic" "Cloze"
    ⟨"Cloze", 0, [⟨"Text"⟩]⟩ (by decide) (by decide)

/-! ### Claim C4 -/

theorem clamp_bounds (r : ℤ) : 1 ≤ min 10 (max 1 r) ∧ min 10 (max 1 r) ≤ 10 := by
  omega

/-- Claim C4 as amended (score bounds): every parsed score entry carries a
score in `[1,10]`; a numeric score value is rounded and clamped, a
non-numeric one defaults to 5; the grade comes from `gradeFromScore`; and
`improvedCard` can only be present when the clamped score is below 7 (it is
then whatever `validateImprovedCard` accepts from the payload, so it may
still be absent).  The concrete conjuncts check 15 ↦ 10, -2 ↦ 1 and a
non-numeric score ↦ 5 end to end. -/
theorem C4_score_bounds :
    (∀ (s : Json) (i : Nat) (cs : CardScore), parseScoreEntry s i = .ok cs →
       (1 ≤ cs.score ∧ cs.score ≤ 10) ∧ cs.grade = gradeFromScore cs.score ∧
       (cs.improvedCard.isSome = true → cs.score < 7)) ∧
    (∀ (o : List (String × Json)) (i : Nat) (m : Int) (e : Nat) (cs : CardScore),
       objGet o "score" = some (.num m e) → parseScoreEntry (.obj o) i = .ok cs →
       cs.score = min 10 (max 1 (jsRound m e)) ∧
       cs.improvedCard = (if min 10 (max 1 (jsRound m e)) < 7 then
         validateImprovedCard (objGet o "improvedCard") else none)) ∧
    (∀ (o : List (String × Json)) (i : Nat) (cs : CardScore),
       isNumJson (objGet o "score") = false → parseScoreEntry (.obj o) i = .ok cs →
       cs.score = 5) ∧
    parseScoreResponse "\x7b\"scores\":[\x7b\"score\":15,\"feedback\":[\"a\"]\x7d]\x7d" =
      .ok ⟨[⟨10, "Excellent", ["a"], none⟩]⟩ ∧
    parseScoreResponse "\x7b\"scores\":[\x7b\"score\":-2,\"feedback\":[\"b\"]\x7d]\x7d" =
      .ok ⟨[⟨1, "Poor", ["b"], none⟩]⟩ ∧
    parseScoreResponse "\x7b\"scores\":[\x7b\"score\":\"high\",\"feedback\":[\"c\"]\x7d]\x7d" =
      .ok ⟨[⟨5, "Needs Work", ["c"], none⟩]⟩ := by
  refine ⟨?_, ?_, ?_, by decide, by decide, by decide⟩
  · intro s i cs h
    cases s with
    | null => simp [parseScoreEntry] at h
    | bool b =>
        simp only [parseScoreEntry] at h
        cases h
        exact ⟨by simp [objGet], rfl, by simp [objGet]⟩
    | num m e =>
        simp only [parseScoreEntry] at h
        cases h
        exact ⟨by simp [objGet], rfl, by simp [objGet]⟩
    | str s =>
        simp only [parseScoreEntry] at h
        cases h
        exact ⟨by simp [objGet], rfl, by simp [objGet]⟩
    | arr xs =>
        simp only [parseScoreEntry] at h
        cases h
        exact ⟨by simp [objGet], rfl, by simp [objGet]⟩
    | obj o =>
        simp only [parseScoreEntry] at h
        cases h
        constructor
        · cases hsc : objGet o "score" with
          | none => simp [hsc]
          | some j =>
              cases j <;> simp [hsc]
        · refine ⟨rfl, ?_⟩
          intro hs
          by_cases hlt : (match objGet o "score" with
            | some (.num m e) => min 10 (max 1 (jsRound m e))
            | _ => (5 : ℤ)) < 7
          · exact hlt
          · simp only [if_neg hlt, Option.isSome_none] at hs
            exact absurd hs (by simp)
  · intro o i m e cs hsc h
    simp only [parseScoreEntry, hsc] at h
    cases h
    exact ⟨rfl, rfl⟩
  · intro o i cs hnum h
    simp only [parseScoreEntry] at h
    cases h
    cases hsc : objGet o "score" with
    | none => simp [hsc]
    | some j =>
        cases j <;> simp [hsc]
        simp [isNumJson, hsc] at hnum

/-- Witness for C4: the amended statement applied at a concrete numeric
score entry (value 15, clamping to 10). -/
theorem C4_witness :
    (1 ≤ (10 : ℤ) ∧ (10 : ℤ) ≤ 10) ∧ min 10 (max 1 (jsRound 15 0)) = 10 := by
  have hok : parseScoreEntry (.obj [("score", .num 15 0), ("feedback", .arr [.str "a"])]) 0 =
      .ok ⟨10, "Excellent", ["a"], none⟩ := by decide
  have h1 := C4_score_bounds.1 (.obj [("score", .num 15 0), ("feedback", .arr [.str "a"])])
    0 ⟨10, "Excellent", ["a"], none⟩ hok
  have h2 := (C4_score_bounds.2.1 [("score", .num 15 0), ("feedback", .arr [.str "a"])]
    0 15 0 ⟨10, "Excellent", ["a"], none⟩ rfl hok).1
  exact ⟨h1.1, h2.symm⟩

/-- Counterexample for C4 as stated: a score entry with clamped score 3 (< 7)
whose payload supplies no improved card parses with `improvedCard` absent,
refuting "improvedCard is present if and only if the clamped score is
below 7". -/
theorem C4_counterexample :
    parseScoreResponse "\x7b\"scores\":[\x7b\"score\":3,\"feedback\":[\"x\"]\x7d]\x7d" =
      .ok ⟨[⟨3, "Poor", ["x"], none⟩]⟩ ∧ (3 : ℤ) < 7 := by
  exact ⟨by decide, by decide⟩


/-! ### Claims C7 and C8 -/

/-- The failure predicate of the `cards` check: missing, not an array, or
empty. -/
def cardsBad (o : List (String × Json)) : Bool :=
  match objGet o "cards" with
  | some (.arr xs) => xs.isEmpty
  | _ => true

theorem validateCardsAux_length :
    ∀ (xs : List Json) (i : Nat) (cs : List AICard),
      validateCardsAux i xs = .ok cs → cs.length = xs.length := by
  intro xs
  induction xs with
  | nil =>
      intro i cs h
      simp only [validateCardsAux, pure, Except.pure, Except.ok.injEq] at h
      simp [← h]
  | cons c t ih =>
      intro i cs h
      simp only [validateCardsAux, bind, Except.bind] at h
      cases hc : validateCard c i with
      | error e => simp [hc] at h
      | ok card =>
          simp only [hc] at h
          cases hr : validateCardsAux (i + 1) t with
          | error e => simp [hr] at h
          | ok rest =>
              simp only [hr, pure, Except.pure, Except.ok.injEq] at h
              subst h
              simp [ih (i + 1) rest hr]

/-- Anatomy of a successful `parseAIResponse`. -/
theorem parseAIResponse_ok_shape :
    ∀ (raw : String) (r : AIResponse), parseAIResponse raw = .ok r →
      ∃ (js : String) (p : Json) (o : List (String × Json)) (cards : List Json)
        (v : List AICard),
        extractJSON raw = .ok js ∧ jsonParse js = some p ∧ jsObjLike p = some o ∧
        objGet o "cards" = some (.arr cards) ∧ cards.isEmpty = false ∧
        validateCards cards = .ok v ∧
        r = ⟨(noteTypeOfJson (objGet o "selectedNoteType")).getD NoteType.BASIC, v,
          (strOrNone (objGet o "notes")).getD ""⟩ := by
  intro raw r h
  simp only [parseAIResponse, bind, Except.bind] at h
  split at h
  · exact absurd h (by simp)
  · rename_i js hjs
    split at h
    · exact absurd h (by simp)
    · rename_i p hp
      split at h
      · exact absurd h (by simp)
      · rename_i o ho
        split at h
        · rename_i cards hc
          split at h
          · exact absurd h (by simp)
          · rename_i hne
            split at h
            · exact absurd h (by simp)
            · rename_i v hv
              cases h
              refine ⟨js, p, o, cards, v, hjs, hp, ho, hc, by simpa using hne, hv, ?_⟩
              cases hnt : noteTypeOfJson (objGet o "selectedNoteType") <;>
                simp [hnt, Option.getD]
        · exact absurd h (by simp)

/-- Claim C8 (empty-batch rejection): a payload whose `cards` is missing,
not an array, or empty always fails with the "no cards" error, and every
successful parse carries a non-empty card list. -/
theorem C8_empty_batch :
    (∀ (raw : String) (r : AIResponse), parseAIResponse raw = .ok r → r.cards ≠ []) ∧
    (∀ (raw js : String) (p : Json) (o : List (String × Json)),
      extractJSON raw = .ok js → jsonParse js = some p → jsObjLike p = some o →
      cardsBad o = true →
      parseAIResponse raw = .error "AI response contains no cards") := by
  constructor
  · intro raw r h
    obtain ⟨js, p, o, cards, v, -, -, -, -, hne, hv, hr⟩ :=
      parseAIResponse_ok_shape raw r h
    subst hr
    intro hnil
    simp only at hnil
    have hlen := validateCardsAux_length cards 0 v hv
    rw [hnil] at hlen
    cases cards with
    | nil => simp at hne
    | cons c t => simp at hlen
  · intro raw js p o hext hp ho hbad
    simp only [parseAIResponse, bind, Except.bind, hext, hp, ho]
    split
    · rename_i cards hc
      have hxe : cards.isEmpty = true := by
        simpa [cardsBad, hc] using hbad
      rw [if_pos hxe]
    · rfl

/-- Witness for C8: the closed empty-cards payload is rejected. -/
theorem C8_witness :
    parseAIResponse "\x7b\"selectedNoteType\":\"BASIC\",\"cards\":[]\x7d" =
      .error "AI response contains no cards" :=
  C8_empty_batch.2 "\x7b\"selectedNoteType\":\"BASIC\",\"cards\":[]\x7d"
    "\x7b\"selectedNoteType\":\"BASIC\",\"cards\":[]\x7d"
    (Json.obj [("selectedNoteType", .str "BASIC"), ("cards", .arr [])])
    [("selectedNoteType", .str "BASIC"), ("cards", .arr [])]
    (by decide) rfl rfl (by decide)

/-- Claim C7 (defaulting and per-field leniency): an invalid or absent
`selectedNoteType` is coerced to BASIC; non-string entries are silently
filtered out of a card's `tags` rather than failing the card; and the
concrete BOGUS payload parses to `selectedNoteType = BASIC` with
`tags = ["z"]`. -/
theorem C7_defaulting :
    (∀ (raw js : String) (p : Json) (o : List (String × Json)) (r : AIResponse),
      extractJSON raw = .ok js → jsonParse js = some p → jsObjLike p = some o →
      noteTypeOfJson (objGet o "selectedNoteType") = none →
      parseAIResponse raw = .ok r → r.selectedNoteType = NoteType.BASIC) ∧
    (∀ (c : Json) (i : Nat) (card : AICard) (o : List (String × Json)),
      jsObjLike c = some o → validateCard c i = .ok card →
      card.tags = tagsOfJson (objGet o "tags")) ∧
    (∀ (xs : List Json), tagsOfJson (some (.arr xs)) = xs.filterMap asStr) ∧
    parseAIResponse
        "\x7b\"selectedNoteType\":\"BOGUS\",\"cards\":[\x7b\"front\":\"x\",\"back\":\"y\",\"tags\":[1,null,\"z\"]\x7d]\x7d" =
      .ok ⟨NoteType.BASIC, [{ front := some "x", back := some "y", tags := ["z"] }], ""⟩ := by
  refine ⟨?_, ?_, fun xs => rfl, by decide⟩
  · intro raw js p o r hext hp ho hnt h
    obtain ⟨js2, p2, o2, cards, v, hext2, hp2, ho2, -, -, -, hr⟩ :=
      parseAIResponse_ok_shape raw r h
    rw [hext] at hext2
    cases hext2
    rw [hp] at hp2
    cases hp2
    rw [ho] at ho2
    cases ho2
    subst hr
    simp [hnt, Option.getD]
  · intro c i card o ho h
    cases c with
    | obj oc =>
        cases ho
        simp only [validateCard, jsObjLike, Except.ok.injEq] at h
        subst h
        rfl
    | arr xs =>
        cases ho
        simp only [validateCard, jsObjLike, Except.ok.injEq] at h
        subst h
        rfl
    | null => simp [jsObjLike] at ho
    | bool b => simp [jsObjLike] at ho
    | num m e => simp [jsObjLike] at ho
    | str s => simp [jsObjLike] at ho

/-- Witness for C7: the defaulting branch applied at the BOGUS payload. -/
theorem C7_witness :
    (⟨NoteType.BASIC, [{ front := some "x", back := some "y", tags := ["z"] }],
        ""⟩ : AIResponse).selectedNoteType = NoteType.BASIC := by
  have hraw : parseAIResponse
      "\x7b\"selectedNoteType\":\"BOGUS\",\"cards\":[\x7b\"front\":\"x\",\"back\":\"y\",\"tags\":[1,null,\"z\"]\x7d]\x7d" =
      .ok ⟨NoteType.BASIC, [{ front := some "x", back := some "y", tags := ["z"] }], ""⟩ := by
    decide
  exact C7_defaulting.1
    "\x7b\"selectedNoteType\":\"BOGUS\",\"cards\":[\x7b\"front\":\"x\",\"back\":\"y\",\"tags\":[1,null,\"z\"]\x7d]\x7d"
    "\x7b\"selectedNoteType\":\"BOGUS\",\"cards\":[\x7b\"front\":\"x\",\"back\":\"y\",\"tags\":[1,null,\"z\"]\x7d]\x7d"
    (Json.obj [("selectedNoteType", .str "BOGUS"),
      ("cards", .arr [Json.obj [("front", .str "x"), ("back", .str "y"),
        ("tags", .arr [.num 1 0, .null, .str "z"])]])])
    [("selectedNoteType", .str "BOGUS"),
      ("cards", .arr [Json.obj [("front", .str "x"), ("back", .str "y"),
        ("tags", .arr [.num 1 0, .null, .str "z"])]])]
    _ (by decide) rfl rfl rfl hraw

/-! ### FieldMap lemmas -/

def keysOf (m : FieldMap) : List String := m.map Prod.fst

theorem keysOf_cons {p : String × String} {m : FieldMap} :
    keysOf (p :: m) = p.1 :: keysOf m := rfl

theorem keysOf_append {m l2 : FieldMap} :
    keysOf (m ++ l2) = keysOf m ++ keysOf l2 := by
  simp [keysOf]

theorem hasKey_iff {m : FieldMap} {k : String} : hasKey m k = true ↔ k ∈ keysOf m := by
  simp [hasKey, keysOf, List.any_eq_true, List.mem_map, beq_iff_eq]

theorem setF_cons_eq {p : String × String} {t : FieldMap} {k v : String}
    (h : p.1 = k) : setF (p :: t) k v = (k, v) :: t := by
  simp [setF, h]

theorem setF_cons_ne {p : String × String} {t : FieldMap} {k v : String}
    (h : ¬p.1 = k) : setF (p :: t) k v = p :: setF t k v := by
  simp [setF, h]

theorem getF_nil {x : String} : getF [] x = none := rfl

theorem getF_cons_pos {p : String × String} {m : FieldMap} {x : String}
    (h : p.1 = x) : getF (p :: m) x = some p.2 := by
  simp [getF, List.find?_cons_of_pos, h]

theorem getF_cons_neg {p : String × String} {m : FieldMap} {x : String}
    (h : ¬p.1 = x) : getF (p :: m) x = getF m x := by
  rw [getF, List.find?_cons_of_neg _ (by simpa using h)]
  rfl

theorem mem_keysOf_setF {m : FieldMap} {k v x : String} :
    x ∈ keysOf (setF m k v) ↔ x = k ∨ x ∈ keysOf m := by
  induction m with
  | nil => simp [setF, keysOf]
  | cons p t ih =>
      by_cases hpk : p.1 = k
      · rw [setF_cons_eq hpk, keysOf_cons, keysOf_cons, List.mem_cons, List.mem_cons,
          hpk]
        tauto
      · rw [setF_cons_ne hpk, keysOf_cons, keysOf_cons, List.mem_cons, List.mem_cons,
          ih]
        tauto

theorem nodup_keysOf_setF {m : FieldMap} {k v : String}
    (h : (keysOf m).Nodup) : (keysOf (setF m k v)).Nodup := by
  induction m with
  | nil => simp [setF, keysOf]
  | cons p t ih =>
      rw [keysOf_cons, List.nodup_cons] at h
      by_cases hpk : p.1 = k
      · rw [setF_cons_eq hpk, keysOf_cons, List.nodup_cons]
        exact ⟨by rw [← hpk]; exact h.1, h.2⟩
      · rw [setF_cons_ne hpk, keysOf_cons, List.nodup_cons]
        refine ⟨?_, ih h.2⟩
        intro hmem
        rcases mem_keysOf_setF.mp hmem with he | hx
        · exact hpk he
        · exact h.1 hx

theorem getF_setF_self {m : FieldMap} {k v : String} :
    getF (setF m k v) k = some v := by
  induction m with
  | nil => simp [setF, getF]
  | cons p t ih =>
      by_cases hpk : p.1 = k
      · rw [setF_cons_eq hpk, getF_cons_pos rfl]
      · rw [setF_cons_ne hpk, getF_cons_neg hpk]
        exact ih

theorem getF_setF_other {m : FieldMap} {k v x : String} (hx : x ≠ k) :
    getF (setF m k v) x = getF m x := by
  induction m with
  | nil =>
      rw [setF, getF_nil, getF_cons_neg (by simpa using fun he => hx he.symm), getF_nil]
  | cons p t ih =>
      by_cases hpk : p.1 = k
      · rw [setF_cons_eq hpk, getF_cons_neg (by simpa using fun he => hx he.symm),
          getF_cons_neg (by rw [hpk]; exact fun he => hx he.symm)]
      · by_cases hpx : p.1 = x
        · rw [setF_cons_ne hpk, getF_cons_pos hpx, getF_cons_pos hpx]
        · rw [setF_cons_ne hpk, getF_cons_neg hpx, getF_cons_neg hpx]
          exact ih

theorem getF_setIf_keep {m : FieldMap} {fld v : Option String} {x : String}
    (hx : ∀ f, fld = some f → x ≠ f) :
    getF (setIf m fld v) x = getF m x := by
  cases fld with
  | none => cases v <;> rfl
  | some f =>
      cases v with
      | none => rfl
      | some s =>
          simp only [setIf]
          by_cases hs : s == ""
          · rw [if_pos hs]
          · rw [if_neg hs]
            exact getF_setF_other (hx f rfl)

theorem getF_setIf_self {m : FieldMap} {f s : String} (hs : s ≠ "") :
    getF (setIf m (some f) (some s)) f = some s := by
  simp only [setIf]
  rw [if_neg (by simpa using hs)]
  exact getF_setF_self

theorem getF_append_left {m l2 : FieldMap} {x : String}
    (h : (getF m x).isSome) : getF (m ++ l2) x = getF m x := by
  induction m with
  | nil => simp [getF] at h
  | cons p t ih =>
      by_cases hpx : p.1 = x
      · rw [List.cons_append, getF_cons_pos hpx, getF_cons_pos hpx]
      · rw [getF_cons_neg hpx] at h
        rw [List.cons_append, getF_cons_neg hpx, getF_cons_neg hpx]
        exact ih h

theorem getF_fillEmpty_keep {names : List String} {m : FieldMap} {x : String}
    (h : (getF m x).isSome) : getF (fillEmpty names m) x = getF m x := by
  induction names generalizing m with
  | nil => simp [fillEmpty]
  | cons n ns ih =>
      simp only [fillEmpty, List.foldl_cons] at ih ⊢
      by_cases hk : hasKey m n = true
      · rw [if_pos hk]
        exact ih h
      · rw [if_neg hk]
        rw [ih (by rw [getF_append_left h]; exact h)]
        exact getF_append_left h

theorem mem_keysOf_setIf {m : FieldMap} {fld v : Option String} {x : String}
    (h : x ∈ keysOf (setIf m fld v)) :
    x ∈ keysOf m ∨ ∃ f, fld = some f ∧ x = f := by
  cases fld with
  | none => cases v <;> exact Or.inl h
  | some f =>
      cases v with
      | none => exact Or.inl h
      | some s =>
          simp only [setIf] at h
          by_cases hs : s == ""
          · rw [if_pos hs] at h; exact Or.inl h
          · rw [if_neg hs] at h
            rcases mem_keysOf_setF.mp h with he | hx
            · exact Or.inr ⟨f, rfl, he⟩
            · exact Or.inl hx

theorem nodup_keysOf_setIf {m : FieldMap} {fld v : Option String}
    (h : (keysOf m).Nodup) : (keysOf (setIf m fld v)).Nodup := by
  cases fld with
  | none => cases v <;> exact h
  | some f =>
      cases v with
      | none => exact h
      | some s =>
          simp only [setIf]
          by_cases hs : s == ""
          · rw [if_pos hs]; exact h
          · rw [if_neg hs]; exact nodup_keysOf_setF h

theorem mem_keysOf_fillEmpty {names : List String} {m : FieldMap} {x : String} :
    x ∈ keysOf (fillEmpty names m) ↔ x ∈ keysOf m ∨ x ∈ names := by
  induction names generalizing m with
  | nil => simp [fillEmpty]
  | cons n ns ih =>
      simp only [fillEmpty, List.foldl_cons] at ih ⊢
      by_cases hk : hasKey m n = true
      · rw [if_pos hk, ih]
        have hn : n ∈ keysOf m := hasKey_iff.mp hk
        rw [List.mem_cons]
        constructor
        · tauto
        · rintro (hx | rfl | hx) <;> tauto
      · rw [if_neg hk, ih, keysOf_append]
        show _ ∈ _ ∨ _ ↔ _
        rw [List.mem_append, List.mem_cons]
        have : keysOf [(n, "")] = [n] := rfl
        rw [this]
        simp only [List.mem_singleton]
        tauto

theorem nodup_keysOf_fillEmpty {names : List String} {m : FieldMap}
    (h : (keysOf m).Nodup) : (keysOf (fillEmpty names m)).Nodup := by
  induction names generalizing m with
  | nil => simpa [fillEmpty]
  | cons n ns ih =>
      simp only [fillEmpty, List.foldl_cons] at ih ⊢
      by_cases hk : hasKey m n = true
      · rw [if_pos hk]; exact ih h
      · rw [if_neg hk]
        apply ih
        have hn : n ∉ keysOf m := fun hm => hk (hasKey_iff.mpr hm)
        rw [keysOf_append]
        have : keysOf [(n, "")] = [n] := rfl
        rw [this]
        simp [List.nodup_append, h, hn]

/-! ### Success shape of the mappers (for C2) -/

theorem mapBasicCard_ok {card : AICard} {models : List Model} {bn mn : String}
    {fields : FieldMap} (h : mapBasicCard card models bn = .ok mn fields) :
    mn = bn ∧ ∃ model, models.find? (fun m => m.name == bn) = some model ∧
      (keysOf fields).Nodup ∧
      (∀ k, k ∈ keysOf fields ↔ k ∈ model.flds.map (fun f => f.name)) := by
  simp only [mapBasicCard] at h
  split at h
  · exact absurd h (by simp)
  · rename_i model hfind
    split at h
    · exact absurd h (by simp)
    · rename_i f0 hbase
      simp only [MappingOut.ok.injEq] at h
      obtain ⟨hmn, hfields⟩ := h
      subst hmn
      refine ⟨rfl, model, hfind, ?_, ?_⟩
      · rw [← hfields]
        apply nodup_keysOf_fillEmpty
        apply nodup_keysOf_setIf
        apply nodup_keysOf_setIf
        apply nodup_keysOf_setIf
        have hf0 : (keysOf f0).Nodup := by
          split at hbase
          · rename_i ff bf hff hbf
            simp only [Except.ok.injEq] at hbase
            rw [← hbase]
            exact nodup_keysOf_setF (nodup_keysOf_setF (by simp [keysOf]))
          · split at hbase
            · rename_i fn0 fn1 rest heq
              simp only [Except.ok.injEq] at hbase
              rw [← hbase]
              exact nodup_keysOf_setF (nodup_keysOf_setF (by simp [keysOf]))
            · exact absurd hbase (by simp)
        exact hf0
      · intro k
        rw [← hfields, mem_keysOf_fillEmpty]
        constructor
        · rintro (hk | hk)
          · rcases mem_keysOf_setIf hk with hk | ⟨f, hf, rfl⟩
            · rcases mem_keysOf_setIf hk with hk | ⟨f, hf, rfl⟩
              · rcases mem_keysOf_setIf hk with hk | ⟨f, hf, rfl⟩
                · -- k ∈ keysOf f0 ⊆ fieldNames
                  split at hbase
                  · rename_i ff bf hff hbf
                    simp only [Except.ok.injEq] at hbase
                    rw [← hbase] at hk
                    rcases mem_keysOf_setF.mp hk with rfl | hk
                    · exact List.mem_of_find?_eq_some hbf
                    · rcases mem_keysOf_setF.mp hk with rfl | hk
                      · exact List.mem_of_find?_eq_some hff
                      · simp [keysOf] at hk
                  · split at hbase
                    · rename_i fn0 fn1 rest heq
                      simp only [Except.ok.injEq] at hbase
                      rw [← hbase] at hk
                      rcases mem_keysOf_setF.mp hk with rfl | hk
                      · rw [heq]; exact List.mem_cons_of_mem _ (List.mem_cons_self _ _)
                      · rcases mem_keysOf_setF.mp hk with rfl | hk
                        · rw [heq]; exact List.mem_cons_self _ _
                        · simp [keysOf] at hk
                    · exact absurd hbase (by simp)
                · exact List.mem_of_find?_eq_some hf
              · exact List.mem_of_find?_eq_some hf
            · exact List.mem_of_find?_eq_some hf
          · exact hk
        · intro hk
          exact Or.inr hk

theorem mapClozeCard_found_ok {card : AICard} {models : List Model}
    {cn bn mn : String} {fields : FieldMap} {cm : Model}
    (hfind : models.find? (fun m => m.name == cn) = some cm)
    (h : mapClozeCard card models cn bn = .ok mn fields) :
    mn = cn ∧ (keysOf fields).Nodup ∧
      (∀ k, k ∈ keysOf fields ↔ k ∈ cm.flds.map (fun f => f.name)) := by
  simp only [mapClozeCard, hfind] at h
  split at h
  · exact absurd h (by simp)
  · rename_i htype
    split at h
    · exact absurd h (by simp)
    · rename_i textField htf
      simp only [MappingOut.ok.injEq] at h
      obtain ⟨hmn, hfields⟩ := h
      subst hmn
      refine ⟨rfl, ?_, ?_⟩
      · rw [← hfields]
        apply nodup_keysOf_fillEmpty
        apply nodup_keysOf_setIf
        apply nodup_keysOf_setIf
        exact nodup_keysOf_setF (by simp [keysOf])
      · intro k
        rw [← hfields, mem_keysOf_fillEmpty]
        constructor
        · rintro (hk | hk)
          · rcases mem_keysOf_setIf hk with hk | ⟨f, hf, rfl⟩
            · rcases mem_keysOf_setIf hk with hk | ⟨f, hf, rfl⟩
              · rcases mem_keysOf_setF.mp hk with rfl | hk
                · exact List.mem_of_find?_eq_some htf
                · simp [keysOf] at hk
              · exact List.mem_of_find?_eq_some hf
            · exact List.mem_of_find?_eq_some hf
          · exact hk
        · intro hk
          exact Or.inr hk

theorem getF_isSome_of_mem {m : FieldMap} {x : String} (h : x ∈ keysOf m) :
    (getF m x).isSome := by
  induction m with
  | nil => cases h
  | cons p t ih =>
      by_cases hpx : p.1 = x
      · rw [getF_cons_pos hpx]; rfl
      · rw [getF_cons_neg hpx]
        rcases List.mem_cons.mp h with he | ht
        · exact absurd he.symm hpx
        · exact ih ht

theorem getF_append_none {m l2 : FieldMap} {x : String} (h : getF m x = none) :
    getF (m ++ l2) x = getF l2 x := by
  induction m with
  | nil => simp
  | cons p t ih =>
      by_cases hpx : p.1 = x
      · rw [getF_cons_pos hpx] at h; cases h
      · rw [getF_cons_neg hpx] at h
        rw [List.cons_append, getF_cons_neg hpx]
        exact ih h

theorem getF_fillEmpty_none {names : List String} {m : FieldMap} {x : String}
    (hx : x ∈ names) (h : getF m x = none) :
    getF (fillEmpty names m) x = some "" := by
  induction names generalizing m with
  | nil => cases hx
  | cons n ns ih =>
      simp only [fillEmpty, List.foldl_cons] at ih ⊢
      by_cases hxn : x = n
      · subst hxn
        by_cases hk : hasKey m x = true
        · exact absurd (getF_isSome_of_mem (hasKey_iff.mp hk)) (by rw [h]; simp)
        · rw [if_neg hk]
          have hap : getF (m ++ [(x, "")]) x = some "" := by
            rw [getF_append_none h]
            exact getF_cons_pos rfl
          show getF (fillEmpty ns (m ++ [(x, "")])) x = some ""
          rw [getF_fillEmpty_keep (by rw [hap]; rfl)]
          exact hap
      · have hxs : x ∈ ns := by
          rcases List.mem_cons.mp hx with he | ht
          · exact absurd he hxn
          · exact ht
        by_cases hk : hasKey m n = true
        · rw [if_pos hk]
          exact ih hxs h
        · rw [if_neg hk]
          apply ih hxs
          rw [getF_append_none h]
          exact getF_cons_neg (fun he => hxn he.symm)

/-- `setIf` leaves `x` unchanged unless its target is `x` with a truthy
value. -/
theorem getF_setIf_of_not {m : FieldMap} {fld v : Option String} {x : String}
    (h : ∀ f s, fld = some f → v = some s → s ≠ "" → x ≠ f) :
    getF (setIf m fld v) x = getF m x := by
  cases fld with
  | none => cases v <;> rfl
  | some f =>
      cases v with
      | none => rfl
      | some s =>
          simp only [setIf]
          by_cases hs : s == ""
          · rw [if_pos hs]
          · rw [if_neg hs]
            exact getF_setF_other (h f s rfl rfl (by simpa using hs))

/-- On the Basic path, a declared field that no card value targets with
truthy content ends up `""`. -/
theorem mapBasicCard_unsupplied {card : AICard} {models : List Model}
    {bn mn : String} {fields : FieldMap} {model : Model} {k : String}
    (hfind : models.find? (fun m => m.name == bn) = some model)
    (h : mapBasicCard card models bn = .ok mn fields)
    (hk : k ∈ model.flds.map (fun f => f.name))
    (hfb : ∀ ff bf,
      (model.flds.map (fun f => f.name)).find? (fun f => lowerStr f == "front") = some ff →
      (model.flds.map (fun f => f.name)).find? (fun f => lowerStr f == "back") = some bf →
      (k = ff → jsOr card.front (jsOr card.text "") = "") ∧
      (k = bf → jsOr card.back "" = ""))
    (hpos : ∀ fn0 fn1 rest,
      ((model.flds.map (fun f => f.name)).find? (fun f => lowerStr f == "front") = none ∨
       (model.flds.map (fun f => f.name)).find? (fun f => lowerStr f == "back") = none) →
      model.flds.map (fun f => f.name) = fn0 :: fn1 :: rest →
      (k = fn0 → jsOr card.front (jsOr card.text "") = "") ∧
      (k = fn1 → jsOr card.back "" = ""))
    (hextra : ∀ f,
      (model.flds.map (fun f => f.name)).find? (fun f => lowerStr f == "extra") = some f →
      k = f → truthy card.extra = false)
    (hcode : ∀ f,
      (model.flds.map (fun f => f.name)).find? (fun f => lowerStr f == "code") = some f →
      k = f → truthy card.code = false)
    (hts : ∀ f,
      (model.flds.map (fun f => f.name)).find?
        (fun f => lowerStr f == "timestamp" || lowerStr f == "timestamp/source") = some f →
      k = f → truthy card.timestamp = false) :
    getF fields k = some "" := by
  simp only [mapBasicCard, hfind] at h
  split at h
  · exact absurd h (by simp)
  · rename_i f0 hbase
    simp only [MappingOut.ok.injEq] at h
    obtain ⟨hmn, hfields⟩ := h
    have hsetIf : ∀ (fld : Option String) (v : Option String),
        (∀ f, fld = some f → k = f → truthy v = false) →
        ∀ m : FieldMap, getF (setIf m fld v) k = getF m k := by
      intro fld v hcond m
      apply getF_setIf_of_not
      intro f s hf hs hne hkf
      have := hcond f hf hkf
      rw [hs] at this
      simp only [truthy] at this
      exact hne (by simpa using this)
    have h0 : getF f0 k = none ∨ getF f0 k = some "" := by
      split at hbase
      · rename_i ff bf hff hbf
        simp only [Except.ok.injEq] at hbase
        obtain ⟨hkf, hkb⟩ := hfb ff bf hff hbf
        rw [← hbase]
        by_cases hB : k = bf
        · right
          subst hB
          rw [getF_setF_self, hkb rfl]
        · by_cases hF : k = ff
          · right
            subst hF
            rw [getF_setF_other hB, getF_setF_self, hkf rfl]
          · left
            rw [getF_setF_other hB, getF_setF_other hF, getF_nil]
      · split at hbase
        · rename_i hnb hfns fn0 fn1 rest heq
          have hor : (model.flds.map (fun f => f.name)).find?
                (fun f => lowerStr f == "front") = none ∨
              (model.flds.map (fun f => f.name)).find?
                (fun f => lowerStr f == "back") = none := by
            cases hf : (model.flds.map (fun f => f.name)).find?
                (fun f => lowerStr f == "front") with
            | none => exact Or.inl rfl
            | some ff =>
                cases hb : (model.flds.map (fun f => f.name)).find?
                    (fun f => lowerStr f == "back") with
                | none => exact Or.inr rfl
                | some bf => exact (hnb ff bf hf hb).elim
          simp only [Except.ok.injEq] at hbase
          obtain ⟨hkf, hkb⟩ := hpos fn0 fn1 rest hor heq
          rw [← hbase]
          by_cases hB : k = fn1
          · right
            subst hB
            rw [getF_setF_self, hkb rfl]
          · by_cases hF : k = fn0
            · right
              subst hF
              rw [getF_setF_other hB, getF_setF_self, hkf rfl]
            · left
              rw [getF_setF_other hB, getF_setF_other hF, getF_nil]
        · exact absurd hbase (by simp)
    have h3 : getF (setIf (setIf (setIf f0
          ((model.flds.map (fun f => f.name)).find? (fun f => lowerStr f == "extra"))
          card.extra)
          ((model.flds.map (fun f => f.name)).find? (fun f => lowerStr f == "code"))
          card.code)
          ((model.flds.map (fun f => f.name)).find?
            (fun f => lowerStr f == "timestamp" || lowerStr f == "timestamp/source"))
          card.timestamp) k = getF f0 k := by
      rw [hsetIf _ _ hts, hsetIf _ _ hcode, hsetIf _ _ hextra]
    rw [← hfields]
    rcases h0 with h0 | h0
    · exact getF_fillEmpty_none hk (by rw [h3]; exact h0)
    · rw [getF_fillEmpty_keep (by rw [h3, h0]; rfl), h3, h0]

/-- On the Cloze path (model present), a declared field that no card value
targets with truthy content ends up `""`. -/
theorem mapClozeCard_unsupplied {card : AICard} {models : List Model}
    {cn bn mn : String} {fields : FieldMap} {cm : Model} {k : String}
    (hfind : models.find? (fun m => m.name == cn) = some cm)
    (h : mapClozeCard card models cn bn = .ok mn fields)
    (hk : k ∈ cm.flds.map (fun f => f.name))
    (htext : ∀ tf,
      (cm.flds.map (fun f => f.name)).find? (fun f => lowerStr f == "text") = some tf →
      k = tf → jsOr card.text (jsOr card.front "") = "")
    (hextra : ∀ f,
      (cm.flds.map (fun f => f.name)).find?
        (fun f => lowerStr f == "extra" || lowerStr f == "back extra") = some f →
      k = f → truthy card.extra = false)
    (hts : ∀ f,
      (cm.flds.map (fun f => f.name)).find?
        (fun f => lowerStr f == "timestamp" || lowerStr f == "timestamp/source") = some f →
      k = f → truthy card.timestamp = false) :
    getF fields k = some "" := by
  simp only [mapClozeCard, hfind] at h
  split at h
  · exact absurd h (by simp)
  · rename_i htype
    split at h
    · exact absurd h (by simp)
    · rename_i textField htf
      simp only [MappingOut.ok.injEq] at h
      obtain ⟨hmn, hfields⟩ := h
      have hsetIf : ∀ (fld : Option String) (v : Option String),
          (∀ f, fld = some f → k = f → truthy v = false) →
          ∀ m : FieldMap, getF (setIf m fld v) k = getF m k := by
        intro fld v hcond m
        apply getF_setIf_of_not
        intro f s hf hs hne hkf
        have := hcond f hf hkf
        rw [hs] at this
        simp only [truthy] at this
        exact hne (by simpa using this)
      have h0 : getF (setF [] textField (jsOr card.text (jsOr card.front ""))) k
          = none ∨
          getF (setF [] textField (jsOr card.text (jsOr card.front ""))) k
          = some "" := by
        by_cases hT : k = textField
        · right
          subst hT
          rw [getF_setF_self, htext k htf rfl]
        · left
          rw [getF_setF_other hT, getF_nil]
      have h2 : getF (setIf (setIf (setF [] textField (jsOr card.text (jsOr card.front "")))
            ((cm.flds.map (fun f => f.name)).find?
              (fun f => lowerStr f == "extra" || lowerStr f == "back extra"))
            card.extra)
            ((cm.flds.map (fun f => f.name)).find?
              (fun f => lowerStr f == "timestamp" || lowerStr f == "timestamp/source"))
            card.timestamp) k
          = getF (setF [] textField (jsOr card.text (jsOr card.front ""))) k := by
        rw [hsetIf _ _ hts, hsetIf _ _ hextra]
      rw [← hfields]
      rcases h0 with h0 | h0
      · exact getF_fillEmpty_none hk (by rw [h2]; exact h0)
      · rw [getF_fillEmpty_keep (by rw [h2, h0]; rfl), h2, h0]

/-- Claim C2 (field completeness): whenever the mapper succeeds, the
returned fields map has pairwise distinct keys that are exactly the
declared field names of the schema the result names — never sparse, never
extra; on both paths every declared field that the card supplies no truthy
content for (it is not the front/back, Text, extra, code or timestamp
target of a non-empty card value) is mapped to `""`; and in the `[A,B,C]`
example the field the card did not supply content for is mapped to `""`. -/
theorem C2_field_completeness :
    (∀ (card : AICard) (noteType : NoteType) (models : List Model)
        (bn cn mn : String) (fields : FieldMap),
      mapAICardToAnkiFields card noteType models bn cn = .ok mn fields →
      ∃ model, models.find? (fun m => m.name == mn) = some model ∧
        (keysOf fields).Nodup ∧
        (∀ k, k ∈ keysOf fields ↔ k ∈ model.flds.map (fun f => f.name))) ∧
    (∀ (card : AICard) (models : List Model) (bn mn : String)
        (fields : FieldMap) (model : Model) (k : String),
      models.find? (fun m => m.name == bn) = some model →
      mapBasicCard card models bn = .ok mn fields →
      k ∈ model.flds.map (fun f => f.name) →
      (∀ ff bf,
        (model.flds.map (fun f => f.name)).find? (fun f => lowerStr f == "front") = some ff →
        (model.flds.map (fun f => f.name)).find? (fun f => lowerStr f == "back") = some bf →
        (k = ff → jsOr card.front (jsOr card.text "") = "") ∧
        (k = bf → jsOr card.back "" = "")) →
      (∀ fn0 fn1 rest,
        ((model.flds.map (fun f => f.name)).find? (fun f => lowerStr f == "front") = none ∨
         (model.flds.map (fun f => f.name)).find? (fun f => lowerStr f == "back") = none) →
        model.flds.map (fun f => f.name) = fn0 :: fn1 :: rest →
        (k = fn0 → jsOr card.front (jsOr card.text "") = "") ∧
        (k = fn1 → jsOr card.back "" = "")) →
      (∀ f,
        (model.flds.map (fun f => f.name)).find? (fun f => lowerStr f == "extra") = some f →
        k = f → truthy card.extra = false) →
      (∀ f,
        (model.flds.map (fun f => f.name)).find? (fun f => lowerStr f == "code") = some f →
        k = f → truthy card.code = false) →
      (∀ f,
        (model.flds.map (fun f => f.name)).find?
          (fun f => lowerStr f == "timestamp" || lowerStr f == "timestamp/source") = some f →
        k = f → truthy card.timestamp = false) →
      getF fields k = some "") ∧
    (∀ (card : AICard) (models : List Model) (cn bn mn : String)
        (fields : FieldMap) (cm : Model) (k : String),
      models.find? (fun m => m.name == cn) = some cm →
      mapClozeCard card models cn bn = .ok mn fields →
      k ∈ cm.flds.map (fun f => f.name) →
      (∀ tf,
        (cm.flds.map (fun f => f.name)).find? (fun f => lowerStr f == "text") = some tf →
        k = tf → jsOr card.text (jsOr card.front "") = "") →
      (∀ f,
        (cm.flds.map (fun f => f.name)).find?
          (fun f => lowerStr f == "extra" || lowerStr f == "back extra") = some f →
        k = f → truthy card.extra = false) →
      (∀ f,
        (cm.flds.map (fun f => f.name)).find?
          (fun f => lowerStr f == "timestamp" || lowerStr f == "timestamp/source") = some f →
        k = f → truthy card.timestamp = false) →
      getF fields k = some "") ∧
    mapAICardToAnkiFields { front := some "f", back := some "b", tags := [] }
        NoteType.BASIC [⟨"M", 0, [⟨"A"⟩, ⟨"B"⟩, ⟨"C"⟩]⟩] "M" "Cloze" =
      .ok "M" [("A", "f"), ("B", "b"), ("C", "")] := by
  refine ⟨?_, ?_, ?_, by decide⟩
  · intro card noteType models bn cn mn fields h
    cases noteType with
    | BASIC =>
        simp only [mapAICardToAnkiFields] at h
        obtain ⟨hmn, model, hfind, hnd, hmem⟩ := mapBasicCard_ok h
        subst hmn
        exact ⟨model, hfind, hnd, hmem⟩
    | CLOZE =>
        simp only [mapAICardToAnkiFields, if_pos] at h
        cases hfind : models.find? (fun m => m.name == cn) with
        | none =>
            rw [mapClozeCard, hfind] at h
            simp only [mapBasicCardFromCloze] at h
            obtain ⟨hmn, model, hfind2, hnd, hmem⟩ := mapBasicCard_ok h
            subst hmn
            exact ⟨model, hfind2, hnd, hmem⟩
        | some cm =>
            obtain ⟨hmn, hnd, hmem⟩ := mapClozeCard_found_ok hfind h
            subst hmn
            exact ⟨cm, hfind, hnd, hmem⟩
  · intro card models bn mn fields model k hfind h hk hfb hpos hextra hcode hts
    exact mapBasicCard_unsupplied hfind h hk hfb hpos hextra hcode hts
  · intro card models cn bn mn fields cm k hfind h hk htext hextra hts
    exact mapClozeCard_unsupplied hfind h hk htext hextra hts

/-- Witness for C2: the general completeness statement and the general
unsupplied-field statement applied at the `[A,B,C]` example (field `C`
receives no card content and is mapped to `""`). -/
theorem C2_witness :
    (∃ model,
      [(⟨"M", 0, [⟨"A"⟩, ⟨"B"⟩, ⟨"C"⟩]⟩ : Model)].find? (fun m => m.name == "M") =
        some model ∧
      (keysOf [("A", "f"), ("B", "b"), ("C", "")]).Nodup ∧
      (∀ k, k ∈ keysOf [("A", "f"), ("B", "b"), ("C", "")] ↔
        k ∈ model.flds.map (fun f => f.name))) ∧
    getF [("A", "f"), ("B", "b"), ("C", "")] "C" = some "" := by
  constructor
  · exact C2_field_completeness.1 { front := some "f", back := some "b", tags := [] }
      NoteType.BASIC [⟨"M", 0, [⟨"A"⟩, ⟨"B"⟩, ⟨"C"⟩]⟩] "M" "Cloze" "M"
      [("A", "f"), ("B", "b"), ("C", "")] (by decide)
  · apply C2_field_completeness.2.1 { front := some "f", back := some "b", tags := [] }
      [⟨"M", 0, [⟨"A"⟩, ⟨"B"⟩, ⟨"C"⟩]⟩] "M" "M"
      [("A", "f"), ("B", "b"), ("C", "")] ⟨"M", 0, [⟨"A"⟩, ⟨"B"⟩, ⟨"C"⟩]⟩ "C"
      (by decide) (by decide) (by decide)
    · intro ff bf hff hbf
      have hn : ((⟨"M", 0, [⟨"A"⟩, ⟨"B"⟩, ⟨"C"⟩]⟩ : Model).flds.map
          (fun f => f.name)).find? (fun f => lowerStr f == "front") = none := by decide
      rw [hn] at hff
      cases hff
    · intro fn0 fn1 rest hor heq
      have h1 : (["A", "B", "C"] : List String) = fn0 :: fn1 :: rest := heq
      injection h1 with ha hrest
      injection hrest with hb hrest2
      subst ha
      subst hb
      exact ⟨fun hc => absurd hc (by decide), fun hc => absurd hc (by decide)⟩
    · intro f hf hkf
      have hn : ((⟨"M", 0, [⟨"A"⟩, ⟨"B"⟩, ⟨"C"⟩]⟩ : Model).flds.map
          (fun f => f.name)).find? (fun f => lowerStr f == "extra") = none := by decide
      rw [hn] at hf
      cases hf
    · intro f hf hkf
      have hn : ((⟨"M", 0, [⟨"A"⟩, ⟨"B"⟩, ⟨"C"⟩]⟩ : Model).flds.map
          (fun f => f.name)).find? (fun f => lowerStr f == "code") = none := by decide
      rw [hn] at hf
      cases hf
    · intro f hf hkf
      have hn : ((⟨"M", 0, [⟨"A"⟩, ⟨"B"⟩, ⟨"C"⟩]⟩ : Model).flds.map
          (fun f => f.name)).find?
            (fun f => lowerStr f == "timestamp" || lowerStr f == "timestamp/source")
          = none := by decide
      rw [hn] at hf
      cases hf

/-! ### Claim C9 -/

theorem getF_fill_setIf_self {names : List String} {m : FieldMap} {f s : String}
    (hs : s ≠ "") :
    getF (fillEmpty names (setIf m (some f) (some s))) f = some s := by
  have h1 : getF (setIf m (some f) (some s)) f = some s := getF_setIf_self hs
  rw [getF_fillEmpty_keep (by rw [h1]; rfl)]
  exact h1

theorem getF_fill_setIf_keep {names : List String} {m : FieldMap}
    {fld v : Option String} {x s : String} (hm : getF m x = some s)
    (hd : ∀ f, fld = some f → x ≠ f) :
    getF (fillEmpty names (setIf m fld v)) x = some s := by
  have h1 : getF (setIf m fld v) x = some s := by
    rw [getF_setIf_keep hd]
    exact hm
  rw [getF_fillEmpty_keep (by rw [h1]; rfl)]
  exact h1

theorem getF_fill_setIf2_keep {names : List String} {m : FieldMap}
    {fld1 v1 fld2 v2 : Option String} {x s : String} (hm : getF m x = some s)
    (hd1 : ∀ f, fld1 = some f → x ≠ f) (hd2 : ∀ f, fld2 = some f → x ≠ f) :
    getF (fillEmpty names (setIf (setIf m fld1 v1) fld2 v2)) x = some s := by
  have h1 : getF (setIf m fld1 v1) x = some s := by
    rw [getF_setIf_keep hd1]
    exact hm
  exact getF_fill_setIf_keep h1 hd2

/-- The counterexample card for C9: supplies both `extra` and `timestamp`. -/
def c9card : AICard :=
  { front := some "f", back := some "b", extra := some "E", timestamp := some "T",
    tags := [] }

/-- A Basic schema with a "Back Extra" field and a field whose name contains
(but does not equal) "timestamp". -/
def c9model : Model :=
  ⟨"Basic", 0, [⟨"Front"⟩, ⟨"Back"⟩, ⟨"Back Extra"⟩, ⟨"Created Timestamp"⟩]⟩

/-- Counterexample for C9 as stated: on the BASIC path a field named
"Back Extra" is not populated from the card's extra (that path only matches
a field lowercasing to exactly "extra"), and a field whose name merely
contains "timestamp" is not populated from the card's timestamp (both paths
match only "timestamp" or "timestamp/source" exactly); both stay `""`. -/
theorem C9_counterexample :
    mapAICardToAnkiFields c9card NoteType.BASIC [c9model] "Basic" "Cloze" =
      MappingOut.ok "Basic"
        [("Front", "f"), ("Back", "b"), ("Back Extra", ""), ("Created Timestamp", "")] ∧
    getF [("Front", "f"), ("Back", "b"), ("Back Extra", ""), ("Created Timestamp", "")]
        "Back Extra" = some "" ∧
    getF [("Front", "f"), ("Back", "b"), ("Back Extra", ""), ("Created Timestamp", "")]
        "Created Timestamp" = some "" ∧
    c9card.extra = some "E" ∧ c9card.timestamp = some "T" :=
  ⟨by decide, by decide, by decide, rfl, rfl⟩

/-- Claim C9 as amended (optional-field population): on the CLOZE path a
field whose lowercased name equals "extra" or "back extra" is populated
from the card's (truthy) extra; on the BASIC path only a field whose
lowercased name equals exactly "extra" is; on both paths a field whose
lowercased name equals exactly "timestamp" or "timestamp/source" is
populated from the card's (truthy) timestamp — name containment is not
enough. -/
theorem C9_optional_fields :
    (∀ (card : AICard) (models : List Model) (bn cn : String) (cm : Model)
        (tf ef s : String),
      models.find? (fun m => m.name == cn) = some cm → cm.type = 1 →
      (cm.flds.map (fun f => f.name)).find? (fun f => lowerStr f == "text") = some tf →
      (cm.flds.map (fun f => f.name)).find?
        (fun f => lowerStr f == "extra" || lowerStr f == "back extra") = some ef →
      card.extra = some s → s ≠ "" →
      ∃ fields, mapAICardToAnkiFields card NoteType.CLOZE models bn cn =
          .ok cn fields ∧ getF fields ef = some s) ∧
    (∀ (card : AICard) (models : List Model) (bn cn : String) (cm : Model)
        (tf tsf s : String),
      models.find? (fun m => m.name == cn) = some cm → cm.type = 1 →
      (cm.flds.map (fun f => f.name)).find? (fun f => lowerStr f == "text") = some tf →
      (cm.flds.map (fun f => f.name)).find?
        (fun f => lowerStr f == "timestamp" || lowerStr f == "timestamp/source") =
        some tsf →
      card.timestamp = some s → s ≠ "" →
      ∃ fields, mapAICardToAnkiFields card NoteType.CLOZE models bn cn =
          .ok cn fields ∧ getF fields tsf = some s) ∧
    (∀ (card : AICard) (models : List Model) (bn mn : String) (bm : Model)
        (ef s : String) (fields : FieldMap),
      models.find? (fun m => m.name == bn) = some bm →
      (bm.flds.map (fun f => f.name)).find? (fun f => lowerStr f == "extra") = some ef →
      card.extra = some s → s ≠ "" →
      mapBasicCard card models bn = .ok mn fields →
      getF fields ef = some s) ∧
    (∀ (card : AICard) (models : List Model) (bn mn : String) (bm : Model)
        (tsf s : String) (fields : FieldMap),
      models.find? (fun m => m.name == bn) = some bm →
      (bm.flds.map (fun f => f.name)).find?
        (fun f => lowerStr f == "timestamp" || lowerStr f == "timestamp/source") =
        some tsf →
      card.timestamp = some s → s ≠ "" →
      mapBasicCard card models bn = .ok mn fields →
      getF fields tsf = some s) := by
  refine ⟨?_, ?_, ?_, ?_⟩
  · intro card models bn cn cm tf ef s hfind htype htf hef hex hs
    have hefl : lowerStr ef = "extra" ∨ lowerStr ef = "back extra" := by
      simpa using List.find?_some hef
    simp only [mapAICardToAnkiFields, if_pos, mapClozeCard, hfind,
      if_neg (by simp [htype] : ¬cm.type ≠ 1), htf, hef, hex]
    refine ⟨_, rfl, ?_⟩
    apply getF_fill_setIf_keep (getF_setIf_self hs)
    intro f hf he
    have hfl : lowerStr f = "timestamp" ∨ lowerStr f = "timestamp/source" := by
      simpa using List.find?_some hf
    rw [he] at hefl
    rcases hefl with h1 | h1 <;> rcases hfl with h2 | h2 <;>
      exact absurd (h1.symm.trans h2) (by decide)
  · intro card models bn cn cm tf tsf s hfind htype htf hts hex hs
    simp only [mapAICardToAnkiFields, if_pos, mapClozeCard, hfind,
      if_neg (by simp [htype] : ¬cm.type ≠ 1), htf, hts, hex]
    exact ⟨_, rfl, getF_fill_setIf_self hs⟩
  · intro card models bn mn bm ef s fields hfind hef hex hs h
    have hefl : lowerStr ef = "extra" := by
      simpa using List.find?_some hef
    simp only [mapBasicCard, hfind, hef, hex] at h
    split at h
    · exact absurd h (by simp)
    · rename_i f0 hbase
      simp only [MappingOut.ok.injEq] at h
      obtain ⟨hmn, hfields⟩ := h
      rw [← hfields]
      apply getF_fill_setIf2_keep (getF_setIf_self hs)
      · intro f hf he
        have hfl : lowerStr f = "code" := by
          simpa using List.find?_some hf
        rw [he] at hefl
        exact absurd (hefl.symm.trans hfl) (by decide)
      · intro f hf he
        have hfl : lowerStr f = "timestamp" ∨ lowerStr f = "timestamp/source" := by
          simpa using List.find?_some hf
        rw [he] at hefl
        rcases hfl with h2 | h2 <;> exact absurd (hefl.symm.trans h2) (by decide)
  · intro card models bn mn bm tsf s fields hfind hts hex hs h
    simp only [mapBasicCard, hfind, hts, hex] at h
    split at h
    · exact absurd h (by simp)
    · rename_i f0 hbase
      simp only [MappingOut.ok.injEq] at h
      obtain ⟨hmn, hfields⟩ := h
      rw [← hfields]
      exact getF_fill_setIf_self hs

/-- Witness for C9: the cloze-extra branch applied to a "Back Extra" field
and the basic-timestamp branch applied to a "Timestamp/Source" field. -/
theorem C9_witness :
    (∃ fields,
      mapAICardToAnkiFields c9card NoteType.CLOZE
          [⟨"Cloze", 1, [⟨"Text"⟩, ⟨"Back Extra"⟩]⟩] "Basic" "Cloze" =
        .ok "Cloze" fields ∧ getF fields "Back Extra" = some "E") ∧
    getF [("Front", "f"), ("Back", "b"), ("Timestamp/Source", "T")]
        "Timestamp/Source" = some "T" := by
  constructor
  · exact C9_optional_fields.1 c9card [⟨"Cloze", 1, [⟨"Text"⟩, ⟨"Back Extra"⟩]⟩]
      "Basic" "Cloze" ⟨"Cloze", 1, [⟨"Text"⟩, ⟨"Back Extra"⟩]⟩ "Text" "Back Extra" "E"
      (by decide) rfl (by decide) (by decide) rfl (by decide)
  · exact C9_optional_fields.2.2.2 c9card
      [⟨"Basic", 0, [⟨"Front"⟩, ⟨"Back"⟩, ⟨"Timestamp/Source"⟩]⟩] "Basic" "Basic"
      ⟨"Basic", 0, [⟨"Front"⟩, ⟨"Back"⟩, ⟨"Timestamp/Source"⟩]⟩ "Timestamp/Source" "T"
      [("Front", "f"), ("Back", "b"), ("Timestamp/Source", "T")]
      (by decide) (by decide) rfl (by decide) (by decide)

/-! ### Claims C6 and C10: the detection fold -/

/-- One step of the `detectContentType` fold, phrased through `scoreOf`. -/
def stepSpec (text : String) (best : ContentType × Nat) (rule : DetectionRule) :
    ContentType × Nat :=
  match scoreOf text rule with
  | none => best
  | some sc => if sc > best.2 then (rule.type, sc) else best

theorem detect_eq_foldl (text : String) :
    detectContentType text = (RULES.foldl (stepSpec text) (.OTHER, 0)).1 := by
  rw [detectContentType]
  congr 1
  apply List.foldl_ext
  intro best rule _
  simp only [stepSpec, scoreOf]
  by_cases h : countMatches text rule.strongSignals < rule.threshold
  · rw [if_pos h, if_pos h]
  · rw [if_neg h, if_neg h]

theorem foldl_stepSpec_bounded {text : String} :
    ∀ (l : List DetectionRule) (b : ContentType × Nat),
      (∀ r ∈ l, ∀ sc, scoreOf text r = some sc → sc ≤ b.2) →
      l.foldl (stepSpec text) b = b := by
  intro l
  induction l with
  | nil => intro b _; rfl
  | cons r t ih =>
      intro b hb
      rw [List.foldl_cons]
      have hstep : stepSpec text b r = b := by
        simp only [stepSpec]
        cases hr : scoreOf text r with
        | none => rfl
        | some sc =>
            have hle : sc ≤ b.2 := hb r (List.mem_cons_self r t) sc hr
            show (if sc > b.2 then (r.type, sc) else b) = b
            rw [if_neg (by omega)]
      rw [hstep]
      exact ih b (fun r2 h2 => hb r2 (List.mem_cons_of_mem r h2))

theorem foldl_stepSpec_win {text : String} :
    ∀ (pre : List DetectionRule) (r0 : DetectionRule) (suf : List DetectionRule)
      (tb : ContentType) (b : Nat) (s0 : Nat),
      scoreOf text r0 = some s0 → b < s0 →
      (∀ r ∈ pre, ∀ sc, scoreOf text r = some sc → sc < s0) →
      (∀ r ∈ suf, ∀ sc, scoreOf text r = some sc → sc ≤ s0) →
      (pre ++ r0 :: suf).foldl (stepSpec text) (tb, b) = (r0.type, s0) := by
  intro pre
  induction pre with
  | nil =>
      intro r0 suf tb b s0 h0 hb _ hsuf
      rw [List.nil_append, List.foldl_cons]
      have hstep : stepSpec text (tb, b) r0 = (r0.type, s0) := by
        simp only [stepSpec]
        rw [h0]
        show (if s0 > (tb, b).2 then (r0.type, s0) else (tb, b)) = (r0.type, s0)
        rw [if_pos (by simpa using hb)]
      rw [hstep]
      exact foldl_stepSpec_bounded suf (r0.type, s0) hsuf
  | cons p pre2 ih =>
      intro r0 suf tb b s0 h0 hb hpre hsuf
      rw [List.cons_append, List.foldl_cons]
      have hp := hpre p (List.mem_cons_self p pre2)
      have hpre2 : ∀ r ∈ pre2, ∀ sc, scoreOf text r = some sc → sc < s0 :=
        fun r h2 => hpre r (List.mem_cons_of_mem p h2)
      cases hps : scoreOf text p with
      | none =>
          have hstep : stepSpec text (tb, b) p = (tb, b) := by
            simp only [stepSpec]
            rw [hps]
          rw [hstep]
          exact ih r0 suf tb b s0 h0 hb hpre2 hsuf
      | some sc => 
          have hsc : sc < s0 := hp sc hps
          by_cases hup : sc > b
          · have hstep : stepSpec text (tb, b) p = (p.type, sc) := by
              simp only [stepSpec]
              rw [hps]
              show (if sc > (tb, b).2 then (p.type, sc) else (tb, b)) = (p.type, sc)
              rw [if_pos hup]
            rw [hstep]
            exact ih r0 suf p.type sc s0 h0 hsc hpre2 hsuf
          · have hstep : stepSpec text (tb, b) p = (tb, b) := by
              simp only [stepSpec]
              rw [hps]
              show (if sc > (tb, b).2 then (p.type, sc) else (tb, b)) = (tb, b)
              rw [if_neg hup]
            rw [hstep]
            exact ih r0 suf tb b s0 h0 hb hpre2 hsuf

/-- Every rule list containing a cleared rule with positive score has a
first rule attaining the maximal cleared score. -/
theorem exists_first_max {text : String} :
    ∀ (l : List DetectionRule),
      (∃ r ∈ l, ∃ sc, scoreOf text r = some sc ∧ 0 < sc) →
      ∃ pre r0 suf s0, l = pre ++ r0 :: suf ∧ scoreOf text r0 = some s0 ∧ 0 < s0 ∧
        (∀ r ∈ pre, ∀ sc, scoreOf text r = some sc → sc < s0) ∧
        (∀ r ∈ l, ∀ sc, scoreOf text r = some sc → sc ≤ s0) := by
  intro l
  induction l with
  | nil => rintro ⟨r, hr, -⟩; exact absurd hr (List.not_mem_nil r)
  | cons r t ih =>
      intro hex
      by_cases hext : ∃ r2 ∈ t, ∃ sc, scoreOf text r2 = some sc ∧ 0 < sc
      · obtain ⟨pre2, r0, suf2, s0, heq, h0, hpos, hpre, hall⟩ := ih hext
        cases hrs : scoreOf text r with
        | none =>
            refine ⟨r :: pre2, r0, suf2, s0, by rw [heq]; rfl, h0, hpos, ?_, ?_⟩
            · intro r2 h2 sc hsc
              rcases List.mem_cons.mp h2 with rfl | h2
              · rw [hrs] at hsc; exact absurd hsc (by simp)
              · exact hpre r2 h2 sc hsc
            · intro r2 h2 sc hsc
              rcases List.mem_cons.mp h2 with rfl | h2
              · rw [hrs] at hsc; exact absurd hsc (by simp)
              · exact hall r2 (heq ▸ h2) sc hsc
        | some sc =>
            by_cases hcmp : s0 ≤ sc
            · refine ⟨[], r, t, sc, rfl, hrs, by omega, by simp, ?_⟩
              intro r2 h2 sc2 hsc2
              rcases List.mem_cons.mp h2 with rfl | h2
              · rw [hrs] at hsc2
                cases hsc2
                omega
              · exact le_trans (hall r2 (heq ▸ h2) sc2 hsc2) hcmp
            · refine ⟨r :: pre2, r0, suf2, s0, by rw [heq]; rfl, h0, hpos, ?_, ?_⟩
              · intro r2 h2 sc2 hsc2
                rcases List.mem_cons.mp h2 with rfl | h2
                · rw [hrs] at hsc2
                  cases hsc2
                  omega
                · exact hpre r2 h2 sc2 hsc2
              · intro r2 h2 sc2 hsc2
                rcases List.mem_cons.mp h2 with rfl | h2
                · rw [hrs] at hsc2
                  cases hsc2
                  omega
                · exact hall r2 (heq ▸ h2) sc2 hsc2
      · obtain ⟨r2, hr2, sc, hsc, hpos⟩ := hex
        have hr2r : r2 = r := by
          rcases List.mem_cons.mp hr2 with rfl | h2
          · rfl
          · exact absurd ⟨r2, h2, sc, hsc, hpos⟩ hext
        subst hr2r
        refine ⟨[], r2, t, sc, rfl, hsc, hpos, by simp, ?_⟩
        intro r3 h3 sc3 hsc3
        rcases List.mem_cons.mp h3 with rfl | h3
        · rw [hsc] at hsc3
          cases hsc3
          omega
        · by_contra hgt
          exact hext ⟨r3, h3, sc3, hsc3, by omega⟩

theorem eq_take_cons_drop {α : Type} :
    ∀ (l : List α) (i : Nat) (x : α), l.get? i = some x →
      l = l.take i ++ x :: l.drop (i + 1) := by
  intro l
  induction l with
  | nil => intro i x h; simp at h
  | cons a t ih =>
      intro i x h
      cases i with
      | zero =>
          simp only [List.get?_cons_zero, Option.some.injEq] at h
          subst h
          simp
      | succ i2 =>
          simp only [List.get?_cons_succ] at h
          have := ih i2 x h
          simp only [List.take_succ_cons, List.drop_succ_cons, List.cons_append,
            List.cons.injEq]
          exact ⟨trivial, this⟩

theorem mem_take_of_get? {α : Type} :
    ∀ (l : List α) (i j : Nat) (x : α), i < j → l.get? i = some x →
      x ∈ l.take j := by
  intro l
  induction l with
  | nil => intro i j x _ h; simp at h
  | cons a t ih =>
      intro i j x hij h
      cases i with
      | zero =>
          simp only [List.get?_cons_zero, Option.some.injEq] at h
          subst h
          cases j with
          | zero => omega
          | succ j2 => simp [List.take_succ_cons]
      | succ i2 =>
          simp only [List.get?_cons_succ] at h
          cases j with
          | zero => omega
          | succ j2 =>
              simp only [List.take_succ_cons, List.mem_cons]
              exact Or.inr (ih i2 j2 x (by omega) h)

theorem append_cons_eq_of_not_mem {α : Type} {x : α} :
    ∀ {A : List α} {B : List α} {C D : List α},
      A ++ x :: B = C ++ x :: D → x ∉ A → x ∉ C → A = C ∧ B = D := by
  intro A
  induction A with
  | nil =>
      intro B C D h hA hC
      cases C with
      | nil => simpa using h
      | cons c C2 =>
          simp only [List.nil_append, List.cons_append, List.cons.injEq] at h
          exact absurd (List.mem_cons.mpr (Or.inl h.1)) hC
  | cons a A2 ih =>
      intro B C D h hA hC
      cases C with
      | nil =>
          simp only [List.cons_append, List.nil_append, List.cons.injEq] at h
          exact absurd (List.mem_cons.mpr (Or.inl h.1.symm)) hA
      | cons c C2 =>
          simp only [List.cons_append, List.cons.injEq] at h
          have hA2 : x ∉ A2 := fun h2 => hA (List.mem_cons_of_mem a h2)
          have hC2 : x ∉ C2 := fun h2 => hC (List.mem_cons_of_mem c h2)
          obtain ⟨hAC, hBD⟩ := ih h.2 hA2 hC2
          exact ⟨by rw [h.1, hAC], hBD⟩

/-- Claim C6 (classifier algorithm): a rule below its strong threshold is
skipped; the classifier returns a cleared category of maximal score
`strong * 3 + weak`, or OTHER (the "general" category) when no rule clears
its threshold; "heap trie" has exactly 2 strong DSA matches and 0 weak ones
and classifies as DSA, while "heap" has a single strong match, below the
DSA threshold 2, and falls through to OTHER. -/
theorem C6_classifier_algorithm :
    (∀ text : String, (∀ r ∈ RULES, scoreOf text r = none) →
      detectContentType text = ContentType.OTHER) ∧
    (∀ (text : String) (r : DetectionRule) (sc : Nat), r ∈ RULES →
      scoreOf text r = some sc → 0 < sc →
      ∃ rbest sbest, rbest ∈ RULES ∧ scoreOf text rbest = some sbest ∧
        detectContentType text = rbest.type ∧ sc ≤ sbest ∧
        ∀ rx ∈ RULES, ∀ sx, scoreOf text rx = some sx → sx ≤ sbest) ∧
    detectContentType "heap trie" = ContentType.DSA_CONCEPT ∧
    (∃ rdsa ∈ RULES, rdsa.type = ContentType.DSA_CONCEPT ∧
      countMatches "heap trie" rdsa.strongSignals = 2 ∧
      countMatches "heap trie" rdsa.weakSignals = 0 ∧ rdsa.threshold = 2 ∧
      scoreOf "heap trie" rdsa = some 6) ∧
    detectContentType "heap" = ContentType.OTHER ∧
    (∃ rdsa ∈ RULES, rdsa.type = ContentType.DSA_CONCEPT ∧
      countMatches "heap" rdsa.strongSignals = 1 ∧ rdsa.threshold = 2 ∧
      scoreOf "heap" rdsa = none) := by
  refine ⟨?_, ?_, by decide, by decide, by decide, by decide⟩
  · intro text hn
    rw [detect_eq_foldl]
    rw [foldl_stepSpec_bounded RULES (ContentType.OTHER, 0)
      (fun r hr sc hsc => by rw [hn r hr] at hsc; exact absurd hsc (by simp))]
  · intro text r sc hr hsc hpos
    obtain ⟨pre, r0, suf, s0, heq, h0, hpos0, hpre, hall⟩ :=
      exists_first_max RULES ⟨r, hr, sc, hsc, hpos⟩
    refine ⟨r0, s0, ?_, h0, ?_, hall r hr sc hsc, hall⟩
    · rw [heq]
      exact List.mem_append_right _ (List.mem_cons_self _ _)
    · rw [detect_eq_foldl, heq,
        foldl_stepSpec_win pre r0 suf ContentType.OTHER 0 s0 h0 hpos0 hpre
          (fun r2 h2 sc2 hsc2 => hall r2
            (heq ▸ List.mem_append_right _ (List.mem_cons_of_mem _ h2)) sc2 hsc2)]

/-- Witness for C6: the maximality statement applied at "heap trie" and
the DSA rule. -/
theorem C6_witness :
    ∃ rbest sbest, rbest ∈ RULES ∧ scoreOf "heap trie" rbest = some sbest ∧
      detectContentType "heap trie" = rbest.type ∧ 6 ≤ sbest ∧
      ∀ rx ∈ RULES, ∀ sx, scoreOf "heap trie" rx = some sx → sx ≤ sbest := by
  obtain ⟨rdsa, hmem, -, -, -, -, hscore⟩ :
      ∃ rdsa ∈ RULES, rdsa.type = ContentType.DSA_CONCEPT ∧
        countMatches "heap trie" rdsa.strongSignals = 2 ∧
        countMatches "heap trie" rdsa.weakSignals = 0 ∧ rdsa.threshold = 2 ∧
        scoreOf "heap trie" rdsa = some 6 := by decide
  exact C6_classifier_algorithm.2.1 "heap trie" rdsa 6 hmem hscore (by omega)

/-- Claim C10 (classifier tie-breaking): when an earlier rule and a later
rule both clear their thresholds with the same score, and that score is
maximal among cleared rules, the earlier rule's category wins; a later rule
can take the result only with a strictly greater score than every earlier
cleared rule. -/
theorem C10_tiebreak :
    (∀ (text : String) (i j : Nat) (ri rj : DetectionRule) (s : Nat),
      i < j → RULES.get? i = some ri → RULES.get? j = some rj →
      scoreOf text ri = some s → scoreOf text rj = some s → 0 < s →
      (∀ r ∈ RULES.take i, ∀ sc, scoreOf text r = some sc → sc < s) →
      (∀ r ∈ RULES, ∀ sc, scoreOf text r = some sc → sc ≤ s) →
      detectContentType text = ri.type) ∧
    (∀ (text : String) (i j : Nat) (ri rj : DetectionRule) (si sj : Nat),
      i < j → RULES.get? i = some ri → RULES.get? j = some rj →
      scoreOf text ri = some si → scoreOf text rj = some sj → 0 < si →
      rj ∉ RULES.take j →
      (∀ r ∈ RULES, r.type = rj.type → r = rj) →
      detectContentType text = rj.type →
      si < sj) := by
  constructor
  · intro text i j ri rj s hij hgi hgj hsi hsj hpos hpre hall
    have heq := eq_take_cons_drop RULES i ri hgi
    rw [detect_eq_foldl, heq,
      foldl_stepSpec_win (RULES.take i) ri (RULES.drop (i + 1))
        ContentType.OTHER 0 s hsi hpos hpre
        (fun r2 h2 sc2 hsc2 => hall r2
          (heq ▸ List.mem_append_right _ (List.mem_cons_of_mem _ h2)) sc2 hsc2)]
  · intro text i j ri rj si sj hij hgi hgj hsi hsj hpos hjtake huniq hdet
    obtain ⟨pre0, r0, suf0, s0, heq0, h0, hpos0, hpre0, hall0⟩ :=
      exists_first_max RULES
        ⟨ri, by
          rw [eq_take_cons_drop RULES i ri hgi]
          exact List.mem_append_right _ (List.mem_cons_self _ _), si, hsi, hpos⟩
    have hdet0 : detectContentType text = r0.type := by
      rw [detect_eq_foldl, heq0,
        foldl_stepSpec_win pre0 r0 suf0 ContentType.OTHER 0 s0 h0 hpos0 hpre0
          (fun r2 h2 sc2 hsc2 => hall0 r2
            (heq0 ▸ List.mem_append_right _ (List.mem_cons_of_mem _ h2)) sc2 hsc2)]
    have hr0j : r0 = rj := by
      apply huniq r0
      · rw [heq0]
        exact List.mem_append_right _ (List.mem_cons_self _ _)
      · rw [← hdet0, hdet]
    subst hr0j
    have hs0j : s0 = sj := by
      rw [hsj] at h0
      exact (Option.some.inj h0).symm
    subst hs0j
    have hjpre0 : r0 ∉ pre0 := fun hmem => by
      have := hpre0 r0 hmem s0 h0
      omega
    have heqj := eq_take_cons_drop RULES j r0 hgj
    have hAC : RULES.take j = pre0 :=
      (append_cons_eq_of_not_mem (heqj.symm.trans heq0) hjtake hjpre0).1
    have hriA : ri ∈ pre0 := by
      rw [← hAC]
      exact mem_take_of_get? RULES i j ri hij hgi
    exact hpre0 ri hriA si hsi

/-- Witness for C10: on "heap trie sharding replication" the DSA rule
(index 1) and the system-design-concept rule (index 3) tie at score 6 and
the earlier DSA rule wins; adding "CDN" lifts the later rule to 9 > 6 and
it takes the result. -/
theorem C10_witness :
    detectContentType "heap trie sharding replication" =
      ContentType.DSA_CONCEPT ∧ (6 : Nat) < 9 := by
  constructor
  · have h := C10_tiebreak.1 "heap trie sharding replication" 1 3 _ _ 6
      (by omega) rfl rfl (by decide) (by decide) (by omega)
      (by
        intro r hr sc hsc
        fin_cases hr
        rw [show scoreOf "heap trie sharding replication" _ = none from by decide]
          at hsc
        exact absurd hsc (by simp))
      (by
        intro r hr sc hsc
        fin_cases hr <;>
          first
          | (rw [show scoreOf "heap trie sharding replication" _ = none from by decide]
              at hsc
             exact absurd hsc (by simp))
          | (rw [show scoreOf "heap trie sharding replication" _ = some 6 from by decide]
              at hsc
             cases hsc
             omega))
    exact h
  · have h := C10_tiebreak.2 "heap trie sharding replication CDN" 1 3 _ _ 6 9
      (by omega) rfl rfl (by decide) (by decide) (by omega) (by decide)
      (by
        intro r hr ht
        fin_cases hr <;> revert ht <;> decide)
      (by decide)
    omega


/-! ### Lemmas about the three extraction tiers of `extractJSON` -/

theorem toList_mk (l : List Char) : (⟨l⟩ : String).toList = l := rfl

theorem jsTrim_mk (l : List Char) : jsTrim ⟨l⟩ = ⟨jsTrimList l⟩ := rfl

theorem jsTrimList_cons_ws (c : Char) (l : List Char) (hc : jsWsChar c = true) :
    jsTrimList (c :: l) = jsTrimList l := by
  unfold jsTrimList
  rw [List.dropWhile_cons_of_pos hc]

theorem jsTrimList_append_ws (c : Char) (l : List Char) (hc : jsWsChar c = true) :
    jsTrimList (l ++ [c]) = jsTrimList l := by
  unfold jsTrimList
  rw [List.dropWhile_append]
  cases hd : (l.dropWhile jsWsChar).isEmpty with
  | true =>
      have h0 : l.dropWhile jsWsChar = [] := by
        cases he : l.dropWhile jsWsChar with
        | nil => rfl
        | cons a t => rw [he] at hd; simp [List.isEmpty] at hd
      simp [hd, h0, hc]
  | false =>
      simp [hd, hc]

theorem jsTrimList_firstLast (a b : Char) (l : List Char)
    (ha : jsWsChar a = false) (hb : jsWsChar b = false) :
    jsTrimList (a :: (l ++ [b])) = a :: (l ++ [b]) := by
  unfold jsTrimList
  rw [List.dropWhile_cons_of_neg (by simp [ha])]
  rw [show (a :: (l ++ [b])).reverse = b :: (l.reverse ++ [a]) by simp]
  rw [List.dropWhile_cons_of_neg (by simp [hb])]
  simp

theorem findSeq_bt3_none (t : List Char) (h : '`' ∉ t) : findSeq bt3 t = none := by
  induction t with
  | nil => rfl
  | cons c t ih =>
      have ht : '`' ∉ t := fun hm => h (List.mem_cons_of_mem c hm)
      have hc : ('`' == c) = false := by
        simp only [beq_eq_false_iff_ne, ne_eq]
        intro he
        exact h (List.mem_cons.mpr (Or.inl he))
      have hlw : leadsWith bt3 (c :: t) = false := by
        simp [bt3, leadsWith, hc]
      simp [findSeq, hlw, ih ht]

theorem findSeq_bt3_append (l1 l2 : List Char) (h : '`' ∉ l1) :
    findSeq bt3 (l1 ++ '`' :: '`' :: '`' :: l2) = some l1.length := by
  induction l1 with
  | nil =>
      have hlw : leadsWith bt3 ('`' :: '`' :: '`' :: l2) = true := by
        simp [bt3, leadsWith]
      simp [findSeq, hlw]
  | cons c t ih =>
      have ht : '`' ∉ t := fun hm => h (List.mem_cons_of_mem c hm)
      have hc : ('`' == c) = false := by
        simp only [beq_eq_false_iff_ne, ne_eq]
        intro he
        exact h (List.mem_cons.mpr (Or.inl he))
      have hlw : leadsWith bt3 (c :: (t ++ '`' :: '`' :: '`' :: l2)) = false := by
        simp [bt3, leadsWith, hc]
      simp [findSeq, hlw, ih ht]

theorem idxOf_append (c : Char) (l1 l2 : List Char) (h : c ∉ l1) :
    idxOf c (l1 ++ c :: l2) = some l1.length := by
  induction l1 with
  | nil => simp [idxOf]
  | cons d t ih =>
      have hd : ¬ d = c := fun he => h (List.mem_cons.mpr (Or.inl he.symm))
      have ht : c ∉ t := fun hm => h (List.mem_cons_of_mem d hm)
      simp [idxOf, hd, ih ht]

theorem extractJSON_tier1 (s : String) (h : startsWithBrace (jsTrim s) = true) :
    extractJSON s = Except.ok (jsTrim s) := by
  simp [extractJSON, h]

theorem extractJSON_tier2 (s : String) (h1 : startsWithBrace (jsTrim s) = false)
    (r : String) (h2 : fenceResult (jsTrim s).toList = some r) :
    extractJSON s = Except.ok r := by
  have h2a : fenceResult (jsTrim s).data = some r := h2
  simp [extractJSON, h1, h2a]

theorem not_backtick_rest (L : List Char) (h : '`' ∉ L) :
    '`' ∉ '\n' :: (L ++ ['\n']) := by
  intro hm
  rcases List.mem_cons.mp hm with h1 | h2
  · exact absurd h1 (by decide)
  · rcases List.mem_append.mp h2 with h3 | h4
    · exact h h3
    · exact absurd h4 (by decide)

theorem findSeq_rest (L : List Char) (h : '`' ∉ L) :
    findSeq bt3 ('\n' :: (L ++ '\n' :: '`' :: '`' :: '`' :: [])) = some (L.length + 2) := by
  have he : '\n' :: (L ++ '\n' :: '`' :: '`' :: '`' :: ([] : List Char))
      = ('\n' :: (L ++ ['\n'])) ++ '`' :: '`' :: '`' :: [] := by simp
  rw [he, findSeq_bt3_append _ _ (not_backtick_rest L h)]
  simp

theorem take_rest (L : List Char) :
    ('\n' :: (L ++ '\n' :: '`' :: '`' :: '`' :: ([] : List Char))).take (L.length + 2)
      = '\n' :: (L ++ ['\n']) := by
  have he : '\n' :: (L ++ '\n' :: '`' :: '`' :: '`' :: ([] : List Char))
      = ('\n' :: (L ++ ['\n'])) ++ '`' :: '`' :: '`' :: [] := by simp
  rw [he]
  exact List.take_left' (by simp)

theorem trim_rest (L : List Char) :
    jsTrimList ('\n' :: (L ++ ['\n'])) = jsTrimList L := by
  rw [jsTrimList_cons_ws _ _ (by decide), jsTrimList_append_ws _ _ (by decide)]

theorem fenceResult_json_wrap (L : List Char) (h : '`' ∉ L) :
    fenceResult
      ('`' :: '`' :: '`' :: 'j' :: 's' :: 'o' :: 'n' :: '\n' :: (L ++ '\n' :: '`' :: '`' :: '`' :: []))
      = some ⟨jsTrimList L⟩ := by
  have h0 : findSeq bt3
      ('`' :: '`' :: '`' :: 'j' :: 's' :: 'o' :: 'n' :: '\n' :: (L ++ '\n' :: '`' :: '`' :: '`' :: []))
      = some 0 := by
    have hlw : leadsWith bt3
        ('`' :: '`' :: '`' :: 'j' :: 's' :: 'o' :: 'n' :: '\n' :: (L ++ '\n' :: '`' :: '`' :: '`' :: []))
        = true := rfl
    simp [findSeq, hlw]
  have hd3 : ('`' :: '`' :: '`' :: 'j' :: 's' :: 'o' :: 'n' :: '\n' :: (L ++ '\n' :: '`' :: '`' :: '`' :: ([] : List Char))).drop 3
      = 'j' :: 's' :: 'o' :: 'n' :: '\n' :: (L ++ '\n' :: '`' :: '`' :: '`' :: []) := rfl
  have hj : leadsWith "json".toList
      ('j' :: 's' :: 'o' :: 'n' :: '\n' :: (L ++ '\n' :: '`' :: '`' :: '`' :: [])) = true := rfl
  have hd7 : ('`' :: '`' :: '`' :: 'j' :: 's' :: 'o' :: 'n' :: '\n' :: (L ++ '\n' :: '`' :: '`' :: '`' :: ([] : List Char))).drop 7
      = '\n' :: (L ++ '\n' :: '`' :: '`' :: '`' :: []) := rfl
  unfold fenceResult
  rw [h0]
  simp only [Nat.zero_add, hd3, hj, if_true, hd7, findSeq_rest L h, take_rest, jsTrim_mk,
    trim_rest]

theorem fenceResult_plain_wrap (L : List Char) (h : '`' ∉ L) :
    fenceResult
      ('`' :: '`' :: '`' :: '\n' :: (L ++ '\n' :: '`' :: '`' :: '`' :: []))
      = some ⟨jsTrimList L⟩ := by
  have h0 : findSeq bt3
      ('`' :: '`' :: '`' :: '\n' :: (L ++ '\n' :: '`' :: '`' :: '`' :: []))
      = some 0 := by
    have hlw : leadsWith bt3
        ('`' :: '`' :: '`' :: '\n' :: (L ++ '\n' :: '`' :: '`' :: '`' :: []))
        = true := rfl
    simp [findSeq, hlw]
  have hd3 : ('`' :: '`' :: '`' :: '\n' :: (L ++ '\n' :: '`' :: '`' :: '`' :: ([] : List Char))).drop 3
      = '\n' :: (L ++ '\n' :: '`' :: '`' :: '`' :: []) := rfl
  have hj : leadsWith "json".toList
      ('\n' :: (L ++ '\n' :: '`' :: '`' :: '`' :: [])) = false := rfl
  have ha : (if leadsWith "json".toList
      ('\n' :: (L ++ '\n' :: '`' :: '`' :: '`' :: [])) = true
      then 0 + 7 else 0 + 3) = 3 := by rw [hj]; rfl
  unfold fenceResult
  rw [h0]
  simp only [ha, hd3, findSeq_rest L h, take_rest, jsTrim_mk, trim_rest]

theorem extractJSON_fenced_json (P : String) (hb : '`' ∉ P.toList) :
    extractJSON ("```json\n" ++ P ++ "\n```") = Except.ok (jsTrim P) := by
  have hdec : ("```json\n" ++ P ++ "\n```").toList
      = '`' :: '`' :: '`' :: 'j' :: 's' :: 'o' :: 'n' :: '\n'
          :: (P.toList ++ '\n' :: '`' :: '`' :: '`' :: []) := rfl
  have h2 : '`' :: (('`' :: '`' :: 'j' :: 's' :: 'o' :: 'n' :: '\n'
        :: (P.toList ++ ['\n', '`', '`'])) ++ ['`'])
      = '`' :: '`' :: '`' :: 'j' :: 's' :: 'o' :: 'n' :: '\n'
          :: (P.toList ++ '\n' :: '`' :: '`' :: '`' :: []) := by simp
  have htr : jsTrim ("```json\n" ++ P ++ "\n```") = "```json\n" ++ P ++ "\n```" := by
    have h1 := jsTrimList_firstLast '`' '`'
      ('`' :: '`' :: 'j' :: 's' :: 'o' :: 'n' :: '\n' :: (P.toList ++ ['\n', '`', '`']))
      (by decide) (by decide)
    show (⟨jsTrimList ("```json\n" ++ P ++ "\n```").toList⟩ : String) = _
    rw [hdec, ← h2, h1, h2, ← hdec]
    rfl
  have hswb : startsWithBrace (jsTrim ("```json\n" ++ P ++ "\n```")) = false := by
    rw [htr]; rfl
  have hfr : fenceResult ((jsTrim ("```json\n" ++ P ++ "\n```")).toList)
      = some (jsTrim P) := by
    rw [htr]
    show fenceResult ("```json\n" ++ P ++ "\n```").toList = some (jsTrim P)
    rw [hdec]
    exact fenceResult_json_wrap P.toList hb
  exact extractJSON_tier2 _ hswb _ hfr

theorem extractJSON_fenced_plain (P : String) (hb : '`' ∉ P.toList) :
    extractJSON ("```\n" ++ P ++ "\n```") = Except.ok (jsTrim P) := by
  have hdec : ("```\n" ++ P ++ "\n```").toList
      = '`' :: '`' :: '`' :: '\n' :: (P.toList ++ '\n' :: '`' :: '`' :: '`' :: []) := rfl
  have h2 : '`' :: (('`' :: '`' :: '\n' :: (P.toList ++ ['\n', '`', '`'])) ++ ['`'])
      = '`' :: '`' :: '`' :: '\n' :: (P.toList ++ '\n' :: '`' :: '`' :: '`' :: []) := by simp
  have htr : jsTrim ("```\n" ++ P ++ "\n```") = "```\n" ++ P ++ "\n```" := by
    have h1 := jsTrimList_firstLast '`' '`'
      ('`' :: '`' :: '\n' :: (P.toList ++ ['\n', '`', '`'])) (by decide) (by decide)
    show (⟨jsTrimList ("```\n" ++ P ++ "\n```").toList⟩ : String) = _
    rw [hdec, ← h2, h1, h2, ← hdec]
    rfl
  have hswb : startsWithBrace (jsTrim ("```\n" ++ P ++ "\n```")) = false := by
    rw [htr]; rfl
  have hfr : fenceResult ((jsTrim ("```\n" ++ P ++ "\n```")).toList)
      = some (jsTrim P) := by
    rw [htr]
    show fenceResult ("```\n" ++ P ++ "\n```").toList = some (jsTrim P)
    rw [hdec]
    exact fenceResult_plain_wrap P.toList hb
  exact extractJSON_tier2 _ hswb _ hfr

theorem extractJSON_prose (pre mid suf F : List Char)
    (hF : F = pre ++ ('\x7b' :: (mid ++ ['\x7d'])) ++ suf)
    (hpre : pre ≠ []) (hbp : '\x7b' ∉ pre) (hbs : '\x7d' ∉ suf)
    (hbq : '`' ∉ F) (hfix : jsTrimList F = F) :
    extractJSON ⟨F⟩ = Except.ok ⟨'\x7b' :: (mid ++ ['\x7d'])⟩ := by
  have htr : jsTrim ⟨F⟩ = ⟨F⟩ := by
    show (⟨jsTrimList F⟩ : String) = (⟨F⟩ : String)
    rw [hfix]
  have hswb : startsWithBrace (jsTrim ⟨F⟩) = false := by
    rw [htr]
    cases hp : pre with
    | nil => exact absurd hp hpre
    | cons p0 pt =>
        have hne : ¬ p0 = '\x7b' := fun he => hbp (hp ▸ List.mem_cons.mpr (Or.inl he.symm))
        rw [hF, hp]
        show decide (p0 = '\x7b') = false
        exact decide_eq_false hne
  have hfr : fenceResult ((jsTrim ⟨F⟩).toList) = none := by
    rw [htr]
    show fenceResult F = none
    unfold fenceResult
    rw [findSeq_bt3_none F hbq]
  have hidx : idxOf '\x7b' F = some pre.length := by
    have he : F = pre ++ '\x7b' :: (mid ++ '\x7d' :: suf) := by
      rw [hF]; simp
    rw [he]
    exact idxOf_append _ _ _ hbp
  have hlast : lastIdxOf '\x7d' F = some (pre.length + (mid.length + 1)) := by
    unfold lastIdxOf
    have hrev : F.reverse = suf.reverse ++ '\x7d' :: (mid.reverse ++ '\x7b' :: pre.reverse) := by
      rw [hF]; simp
    rw [hrev, idxOf_append _ _ _ (by simpa using hbs)]
    have hlen : F.length = pre.length + (mid.length + 2) + suf.length := by
      rw [hF]; simp; omega
    simp only [Option.map_some', Option.some.injEq, List.length_reverse, hlen]
    omega
  have hslice : (F.drop pre.length).take (pre.length + (mid.length + 1) + 1 - pre.length)
      = '\x7b' :: (mid ++ ['\x7d']) := by
    rw [show pre.length + (mid.length + 1) + 1 - pre.length = mid.length + 2 by omega]
    rw [show F = pre ++ (('\x7b' :: (mid ++ ['\x7d'])) ++ suf) by rw [hF]; simp]
    rw [List.drop_left]
    rw [show mid.length + 2 = ('\x7b' :: (mid ++ ['\x7d'])).length by simp]
    exact List.take_left _ _
  have h1 : startsWithBrace (jsTrim ⟨F⟩) = false := hswb
  have h3 : idxOf '\x7b' ((jsTrim ⟨F⟩).toList) = some pre.length := by rw [htr]; exact hidx
  have h4 : lastIdxOf '\x7d' ((jsTrim ⟨F⟩).toList) = some (pre.length + (mid.length + 1)) := by
    rw [htr]; exact hlast
  have hlt : pre.length < pre.length + (mid.length + 1) := by omega
  have h5 : List.take (pre.length + (mid.length + 1) + 1 - pre.length)
      (List.drop pre.length ((jsTrim ⟨F⟩).toList)) = '\x7b' :: (mid ++ ['\x7d']) := by
    rw [htr]
    exact hslice
  simp only [extractJSON, h1, Bool.false_eq_true, if_false, hfr, h3, h4, hlt, if_true, h5]

/-- Counterexample to claim C5 as stated: surrounding a valid JSON payload
with arbitrary prose does not always preserve the parse.  A later brace in
the trailing prose extends the first-brace-to-last-brace slice past the
payload and `JSON.parse` fails. -/
theorem C5_counterexample :
    parseAIResponse
        "Note: \x7b\"selectedNoteType\":\"BASIC\",\"cards\":[\x7b\"front\":\"x\",\"back\":\"y\"\x7d]\x7d tada\x7d"
      ≠ parseAIResponse
        "\x7b\"selectedNoteType\":\"BASIC\",\"cards\":[\x7b\"front\":\"x\",\"back\":\"y\"\x7d]\x7d" := by
  decide

/-- Claim C5 (corrected; extraction idempotence): the extractor tries the
three tiers in order and the first match wins — trimmed text that starts
with a brace is used as-is (tier 1), else a fenced block's trimmed interior
(tier 2), else the first-brace-to-last-brace slice (tier 3).  Wrapping an
object payload in a fenced code block (with or without a `json` language
tag) yields the same parse as the payload itself whenever the payload
contains no backtick; surrounding it with prose yields the same parse when
the prose introduces no backtick, the leading prose is non-empty and
brace-free, and the trailing prose contains no closing brace — not for
arbitrary prose. -/
theorem C5_extraction :
    (∀ s : String, startsWithBrace (jsTrim s) = true →
      extractJSON s = Except.ok (jsTrim s)) ∧
    (∀ (s : String) (r : String), startsWithBrace (jsTrim s) = false →
      fenceResult (jsTrim s).toList = some r → extractJSON s = Except.ok r) ∧
    (∀ P : String, startsWithBrace (jsTrim P) = true → '`' ∉ P.toList →
      parseAIResponse ("```json\n" ++ P ++ "\n```") = parseAIResponse P ∧
      parseAIResponse ("```\n" ++ P ++ "\n```") = parseAIResponse P) ∧
    (∀ pre mid suf F : List Char,
      F = pre ++ ('\x7b' :: (mid ++ ['\x7d'])) ++ suf →
      pre ≠ [] → '\x7b' ∉ pre → '\x7d' ∉ suf → '`' ∉ F → jsTrimList F = F →
      extractJSON ⟨F⟩ = Except.ok ⟨'\x7b' :: (mid ++ ['\x7d'])⟩ ∧
      parseAIResponse ⟨F⟩ = parseAIResponse ⟨'\x7b' :: (mid ++ ['\x7d'])⟩) := by
  refine ⟨extractJSON_tier1, fun s r h1 h2 => extractJSON_tier2 s h1 r h2, ?_, ?_⟩
  · intro P hP hb
    constructor
    · have hE := extractJSON_fenced_json P hb
      have hEP := extractJSON_tier1 P hP
      unfold parseAIResponse
      rw [hE, hEP]
    · have hE := extractJSON_fenced_plain P hb
      have hEP := extractJSON_tier1 P hP
      unfold parseAIResponse
      rw [hE, hEP]
  · intro pre mid suf F hF hpre hbp hbs hbq hfix
    have hE := extractJSON_prose pre mid suf F hF hpre hbp hbs hbq hfix
    refine ⟨hE, ?_⟩
    have hXtr : jsTrim ⟨'\x7b' :: (mid ++ ['\x7d'])⟩ = ⟨'\x7b' :: (mid ++ ['\x7d'])⟩ := by
      show (⟨jsTrimList ('\x7b' :: (mid ++ ['\x7d']))⟩ : String) = _
      rw [jsTrimList_firstLast _ _ _ (by decide) (by decide)]
    have hXswb : startsWithBrace (jsTrim ⟨'\x7b' :: (mid ++ ['\x7d'])⟩) = true := by
      rw [hXtr]; rfl
    have hEX : extractJSON ⟨'\x7b' :: (mid ++ ['\x7d'])⟩
        = Except.ok ⟨'\x7b' :: (mid ++ ['\x7d'])⟩ := by
      rw [extractJSON_tier1 _ hXswb, hXtr]
    unfold parseAIResponse
    rw [hE, hEX]

/-- Witness for C5: the fenced-wrap and prose-wrap statements applied at
concrete payloads. -/
theorem C5_witness :
    parseAIResponse "```json\n\x7b\"cards\":[\x7b\"front\":\"x\"\x7d]\x7d\n```"
      = parseAIResponse "\x7b\"cards\":[\x7b\"front\":\"x\"\x7d]\x7d" ∧
    extractJSON "Note: \x7b\"a\":\"b\"\x7d done." = Except.ok "\x7b\"a\":\"b\"\x7d" ∧
    parseAIResponse "Note: \x7b\"a\":\"b\"\x7d done."
      = parseAIResponse "\x7b\"a\":\"b\"\x7d" := by
  have h3 := C5_extraction.2.2.1 "\x7b\"cards\":[\x7b\"front\":\"x\"\x7d]\x7d"
    (by decide) (by decide)
  have h4 := C5_extraction.2.2.2 "Note: ".toList "\"a\":\"b\"".toList " done.".toList
    "Note: \x7b\"a\":\"b\"\x7d done.".toList (by decide) (by decide) (by decide)
    (by decide) (by decide) (by decide)
  exact ⟨h3.1, h4.1, h4.2⟩

end AnkiAI
